import Mathlib

/-!
# Verification of the training / checkpoint notebooks

Shallow embedding of the two notebooks in `intro-to-pytorch/Part 3 -
Training Neural Networks (Exercises).ipynb` (a training notebook and the
appended saving-and-loading notebook).

Part A embeds the checkpoint lifecycle: the `Network` module built by
`fc_model.Network(input_size, output_size, hidden_layers)`, its state
dict, PyTorch's strict `load_state_dict`, the `checkpoint` dictionary
built in the notebook, and the notebook's `load_checkpoint` function.
`fc_model.py` itself is not part of the repository sources, so the
`Network` constructor is modelled from the spec and from the module
structure printed in the notebook's output cells.

Part B embeds the tensor-reshaping helpers (`resize_` versus `view`).

Part C embeds the real-valued semantics of the training notebook's
network `nn.Sequential(Linear(784,128), ReLU, Linear(128,64), ReLU,
Linear(64,10), LogSoftmax(dim=1))`, the `NLLLoss` criterion, autograd's
backpropagated gradients, the plain-SGD update and one step of the
epoch training loop, together with the validation phase of
`fc_model.train` (modelled from the spec).
-/

/-! ## Part A: tensors, networks, state dicts and checkpoints -/

/-- A named multi-dimensional parameter tensor: a shape (list of
dimension sizes) together with flattened contents.  Float entries are
modelled as rationals. -/
structure Tensor where
  shape : List Nat
  data : List ℚ
deriving DecidableEq, Repr

/-- The parameter names produced by `fc_model.Network`: PyTorch calls
them `hidden_layers.<i>.weight`, `hidden_layers.<i>.bias`,
`output.weight` and `output.bias` (the key list printed by the
notebook).  We render the four name families as an inductive type. -/
inductive ParamName where
  | hiddenWeight (i : Nat)
  | hiddenBias (i : Nat)
  | outputWeight
  | outputBias
deriving DecidableEq, Repr

/-- `model.state_dict()`: an ordered mapping from parameter name to
tensor. -/
abbrev StateDict := List (ParamName × Tensor)

/-- An `nn.Linear(inF, outF)` module: its advertised in/out features
and its two parameter tensors (`weight` of shape `[outF, inF]`, `bias`
of shape `[outF]`). -/
structure Linear where
  inF : Nat
  outF : Nat
  weight : Tensor
  bias : Tensor
deriving DecidableEq, Repr

/-- A freshly initialised `nn.Linear(n, m)`; the notebook never relies
on the random initial values (they are overwritten on load), so the
fresh data is all zeros of the right length. -/
def mkLinear (n m : Nat) : Linear :=
  { inF := n, outF := m,
    weight := { shape := [m, n], data := List.replicate (m * n) 0 },
    bias := { shape := [m], data := List.replicate m 0 } }

/-- The `fc_model.Network` module object: hidden `nn.Linear` layers, the
output `nn.Linear` layer, the dropout probability and the module's
train/eval flag (`nn.Module` defaults to training mode). -/
structure Network where
  inputSize : Nat
  outputSize : Nat
  hiddenLayers : List Linear
  output : Linear
  dropoutP : ℚ
  training : Bool
deriving DecidableEq, Repr

/-- The in/out feature pairs of the hidden layers built from an
architecture description: `(ins,h1), (h1,h2), …, (h(n-1),hn)`. -/
def hiddenDims (ins : Nat) (hs : List Nat) : List (Nat × Nat) :=
  (ins :: hs).zip hs

/-- Modelled from the spec: `fc_model.Network(input_size, output_size,
hidden_layers)` — `fc_model.py` is imported by the notebook but absent
from the sources.  Per spec §4.1/§3 and the module structure printed by
the notebook, it builds `Linear(input_size, h1)`, then a `Linear(a, b)`
for each adjacent pair of hidden sizes, an output layer
`Linear(hn, output_size)` and a `Dropout(p=0.5)`; an empty hidden-size
list is a construction error (the first hidden size is indexed
unconditionally). -/
def Network.build (ins outs : Nat) (hs : List Nat) : Option Network :=
  match hs.getLast? with
  | none => none
  | some hn =>
      some { inputSize := ins, outputSize := outs,
             hiddenLayers := (hiddenDims ins hs).map (fun p => mkLinear p.1 p.2),
             output := mkLinear hn outs,
             dropoutP := 1/2,
             training := true }

/-- The state-dict entries of the hidden layers, numbered from `i`. -/
def hiddenEntries : Nat → List Linear → StateDict
  | _, [] => []
  | i, l :: ls =>
      (ParamName.hiddenWeight i, l.weight) :: (ParamName.hiddenBias i, l.bias)
        :: hiddenEntries (i + 1) ls

/-- `model.state_dict()` for a `Network`: the weight and bias of every
hidden layer in order, then the output layer's weight and bias — the
key order printed by the notebook. -/
def Network.stateDict (m : Network) : StateDict :=
  hiddenEntries 0 m.hiddenLayers
  ++ [(ParamName.outputWeight, m.output.weight), (ParamName.outputBias, m.output.bias)]

/-- The parameter names of a network, in state-dict order. -/
def Network.keys (m : Network) : List ParamName :=
  m.stateDict.map Prod.fst

/-- Look a parameter name up in a state dict. -/
def StateDict.lookupName (sd : StateDict) (k : ParamName) : Option Tensor :=
  (sd.find? fun p => p.1 = k).map Prod.snd

/-- Copy the two parameter tensors of one `Linear` from a state dict,
failing on a missing key or a shape mismatch (never reshaping). -/
def Linear.loadFrom (l : Linear) (w b : Tensor) : Except String Linear :=
  if l.weight.shape = w.shape then
    if l.bias.shape = b.shape then
      .ok { l with weight := w, bias := b }
    else .error "size mismatch for bias"
  else .error "size mismatch for weight"

/-- Load the hidden layers numbered `i, i+1, …` from a state dict. -/
def loadHiddenLayers (sd : StateDict) : Nat → List Linear → Except String (List Linear)
  | _, [] => .ok []
  | i, l :: ls =>
      match sd.lookupName (.hiddenWeight i), sd.lookupName (.hiddenBias i) with
      | some w, some b => do
          let l' ← l.loadFrom w b
          let rest ← loadHiddenLayers sd (i + 1) ls
          pure (l' :: rest)
      | _, _ => .error "missing hidden-layer key"

/-- `model.load_state_dict(sd)` in strict mode (the notebook's call):
the set of parameter names must coincide with the model's and every
tensor's shape must match the target parameter's shape; any mismatch
raises a `RuntimeError` (the notebook's size-mismatch output cell) and
no tensor is ever silently reshaped, truncated or padded.  On success
the model's parameter values are replaced by the record's. -/
def Network.load_state_dict (m : Network) (sd : StateDict) : Except String Network :=
  if (∀ k ∈ m.keys, k ∈ sd.map Prod.fst) then
    if (∀ k ∈ sd.map Prod.fst, k ∈ m.keys) then do
      let hs ← loadHiddenLayers sd 0 m.hiddenLayers
      match sd.lookupName .outputWeight, sd.lookupName .outputBias with
      | some w, some b => do
          let out ← m.output.loadFrom w b
          pure { m with hiddenLayers := hs, output := out }
      | _, _ => .error "missing output key"
    else .error "unexpected keys in state_dict"
  else .error "missing keys in state_dict"

/-- The keys of the notebook's `checkpoint` dictionary. -/
inductive CheckpointKey where
  | input_size
  | output_size
  | hidden_layers
  | state_dict
deriving DecidableEq, Repr

/-- The values stored in a checkpoint dictionary. -/
inductive CheckpointVal where
  | nat (n : Nat)
  | nats (l : List Nat)
  | sd (s : StateDict)
deriving DecidableEq, Repr

/-- A checkpoint record as written by `torch.save(checkpoint, path)`:
a dictionary, here an association list so required fields can be
absent. -/
abbrev Checkpoint := List (CheckpointKey × CheckpointVal)

/-- `checkpoint[k]`: dictionary lookup, a `KeyError` when absent. -/
def Checkpoint.get (ck : Checkpoint) (k : CheckpointKey) : Except String CheckpointVal :=
  match ck.find? (fun p => p.1 = k) with
  | some p => .ok p.2
  | none => .error "KeyError"

/-- `checkpoint[k]` expected to hold an integer. -/
def Checkpoint.getNat (ck : Checkpoint) (k : CheckpointKey) : Except String Nat := do
  match ← ck.get k with
  | .nat n => pure n
  | _ => .error "TypeError"

/-- `checkpoint[k]` expected to hold a list of integers. -/
def Checkpoint.getNats (ck : Checkpoint) (k : CheckpointKey) : Except String (List Nat) := do
  match ← ck.get k with
  | .nats l => pure l
  | _ => .error "TypeError"

/-- `checkpoint[k]` expected to hold a state dict. -/
def Checkpoint.getSd (ck : Checkpoint) (k : CheckpointKey) : Except String StateDict := do
  match ← ck.get k with
  | .sd s => pure s
  | _ => .error "TypeError"

/-- The notebook's checkpoint construction:
`checkpoint = {'input_size': …, 'output_size': …, 'hidden_layers':
[each.out_features for each in model.hidden_layers], 'state_dict':
model.state_dict()}`. -/
def saveCheckpoint (ins outs : Nat) (m : Network) : Checkpoint :=
  [(.input_size, .nat ins),
   (.output_size, .nat outs),
   (.hidden_layers, .nats (m.hiddenLayers.map (·.outF))),
   (.state_dict, .sd m.stateDict)]

/-- The notebook's `load_checkpoint`: read the three architecture
fields, rebuild a fresh `fc_model.Network` from them, then load the
stored `state_dict` into it.  Field lookups follow the source's
evaluation order. -/
def load_checkpoint (ck : Checkpoint) : Except String Network := do
  let ins ← ck.getNat .input_size
  let outs ← ck.getNat .output_size
  let hs ← ck.getNats .hidden_layers
  match Network.build ins outs hs with
  | none => .error "empty hidden layer list"
  | some m => do
      let sd ← ck.getSd .state_dict
      m.load_state_dict sd

/-- A raised error (the computation produced no value). -/
def isErr {α : Type} : Except String α → Bool
  | .error _ => true
  | .ok _ => false

/-- A `Linear` whose tensor shapes agree with its advertised
dimensions, as PyTorch guarantees for `nn.Linear`. -/
def Linear.wf (l : Linear) : Prop :=
  l.weight.shape = [l.outF, l.inF] ∧ l.bias.shape = [l.outF]

instance (l : Linear) : Decidable l.wf :=
  decidable_of_iff (l.weight.shape = [l.outF, l.inF] ∧ l.bias.shape = [l.outF]) Iff.rfl

/-- A `Network` has the architecture `(ins, outs, hs)`: exactly what a
model constructed by `fc_model.Network ins outs hs` satisfies at any
point of its life (training only changes parameter values, never
shapes). -/
def Network.conformsTo (m : Network) (ins outs : Nat) (hs : List Nat) : Prop :=
  (∀ l ∈ m.hiddenLayers, l.wf) ∧ m.output.wf ∧
  m.hiddenLayers.map (fun l => (l.inF, l.outF)) = hiddenDims ins hs ∧
  m.output.inF = hs.getLastD ins ∧ m.output.outF = outs

instance (m : Network) (ins outs : Nat) (hs : List Nat) :
    Decidable (m.conformsTo ins outs hs) :=
  decidable_of_iff ((∀ l ∈ m.hiddenLayers, l.wf) ∧ m.output.wf ∧
    m.hiddenLayers.map (fun l => (l.inF, l.outF)) = hiddenDims ins hs ∧
    m.output.inF = hs.getLastD ins ∧ m.output.outF = outs) Iff.rfl

/-! ### Supporting lemmas about state-dict lookup and loading -/

theorem lookupName_cons_self (k : ParamName) (t : Tensor) (rest : StateDict) :
    StateDict.lookupName ((k, t) :: rest) k = some t := by
  simp [StateDict.lookupName, List.find?_cons_of_pos]

theorem lookupName_cons_ne (k k' : ParamName) (h : k' ≠ k) (t : Tensor) (rest : StateDict) :
    StateDict.lookupName ((k', t) :: rest) k = StateDict.lookupName rest k := by
  simp [StateDict.lookupName, List.find?_cons_of_neg, h]

/-- Hidden-entry blocks only hold hidden keys, so lookups for the output
layer's keys fall through to the remainder. -/
theorem lookupName_hiddenEntries_outputWeight (i : Nat) (ls : List Linear) (rest : StateDict) :
    StateDict.lookupName (hiddenEntries i ls ++ rest) ParamName.outputWeight =
      StateDict.lookupName rest ParamName.outputWeight := by
  induction ls generalizing i with
  | nil => simp [hiddenEntries]
  | cons l ls ih =>
      rw [hiddenEntries, List.cons_append, List.cons_append,
        lookupName_cons_ne _ _ (by simp), lookupName_cons_ne _ _ (by simp)]
      exact ih (i + 1)

theorem lookupName_hiddenEntries_outputBias (i : Nat) (ls : List Linear) (rest : StateDict) :
    StateDict.lookupName (hiddenEntries i ls ++ rest) ParamName.outputBias =
      StateDict.lookupName rest ParamName.outputBias := by
  induction ls generalizing i with
  | nil => simp [hiddenEntries]
  | cons l ls ih =>
      rw [hiddenEntries, List.cons_append, List.cons_append,
        lookupName_cons_ne _ _ (by simp), lookupName_cons_ne _ _ (by simp)]
      exact ih (i + 1)

/-- Lookups for hidden indices strictly beyond the head skip the head
block. -/
theorem lookupName_hiddenEntries_skip (i j : Nat) (hij : i < j) (l : Linear)
    (ls : List Linear) (rest : StateDict) :
    (StateDict.lookupName (hiddenEntries i (l :: ls) ++ rest) (ParamName.hiddenWeight j) =
      StateDict.lookupName (hiddenEntries (i + 1) ls ++ rest) (ParamName.hiddenWeight j)) ∧
    (StateDict.lookupName (hiddenEntries i (l :: ls) ++ rest) (ParamName.hiddenBias j) =
      StateDict.lookupName (hiddenEntries (i + 1) ls ++ rest) (ParamName.hiddenBias j)) := by
  have hne : i ≠ j := Nat.ne_of_lt hij
  constructor
  · rw [hiddenEntries, List.cons_append, List.cons_append,
      lookupName_cons_ne _ _ (by simp [hne]), lookupName_cons_ne _ _ (by simp)]
  · rw [hiddenEntries, List.cons_append, List.cons_append,
      lookupName_cons_ne _ _ (by simp), lookupName_cons_ne _ _ (by simp [hne])]

/-- `loadHiddenLayers` only consults hidden keys numbered `≥ i`. -/
theorem loadHiddenLayers_congr (sd sd' : StateDict) (tgt : List Linear) (i : Nat)
    (h : ∀ j, i ≤ j →
      sd.lookupName (ParamName.hiddenWeight j) = sd'.lookupName (ParamName.hiddenWeight j) ∧
      sd.lookupName (ParamName.hiddenBias j) = sd'.lookupName (ParamName.hiddenBias j)) :
    loadHiddenLayers sd i tgt = loadHiddenLayers sd' i tgt := by
  induction tgt generalizing i with
  | nil => rfl
  | cons l ls ih =>
      rw [loadHiddenLayers, loadHiddenLayers, (h i le_rfl).1, (h i le_rfl).2,
        ih (i + 1) (fun j hj => h j (Nat.le_of_succ_le hj))]

/-- Replace a layer's parameter tensors by another layer's. -/
def Linear.copyData (t s : Linear) : Linear :=
  { t with weight := s.weight, bias := s.bias }

/-- Pairwise shape agreement between a source layer list (whose tensors
are being loaded) and a target layer list. -/
def ShapesMatch (src tgt : List Linear) : Prop :=
  List.Forall₂ (fun s t => t.weight.shape = s.weight.shape ∧ t.bias.shape = s.bias.shape) src tgt

/-- Loading hidden entries produced from `src` into shape-matching
layers `tgt` succeeds and copies `src`'s tensors pairwise. -/
theorem loadHiddenLayers_roundtrip (src tgt : List Linear) (i : Nat) (rest : StateDict)
    (h : ShapesMatch src tgt) :
    loadHiddenLayers (hiddenEntries i src ++ rest) i tgt =
      .ok (List.zipWith Linear.copyData tgt src) := by
  induction h generalizing i with
  | nil => rfl
  | @cons s t ss ts hst _ ih =>
      rw [loadHiddenLayers]
      rw [hiddenEntries, List.cons_append, List.cons_append]
      rw [show StateDict.lookupName
            ((ParamName.hiddenWeight i, s.weight) :: (ParamName.hiddenBias i, s.bias)
              :: (hiddenEntries (i + 1) ss ++ rest)) (ParamName.hiddenWeight i)
          = some s.weight from lookupName_cons_self _ _ _]
      rw [lookupName_cons_ne _ _ (by simp), lookupName_cons_self]
      have hload : t.loadFrom s.weight s.bias = .ok (t.copyData s) := by
        rw [Linear.loadFrom, if_pos hst.1, if_pos hst.2]
        rfl
      have hrec : loadHiddenLayers
          ((ParamName.hiddenWeight i, s.weight) :: (ParamName.hiddenBias i, s.bias)
            :: (hiddenEntries (i + 1) ss ++ rest)) (i + 1) ts =
          loadHiddenLayers (hiddenEntries (i + 1) ss ++ rest) (i + 1) ts := by
        apply loadHiddenLayers_congr
        intro j hj
        have hij : i < j := hj
        constructor
        · rw [lookupName_cons_ne _ _ (by simp [Nat.ne_of_lt hij]),
            lookupName_cons_ne _ _ (by simp)]
        · rw [lookupName_cons_ne _ _ (by simp),
            lookupName_cons_ne _ _ (by simp [Nat.ne_of_lt hij])]
      dsimp only
      rw [hload, hrec, ih (i + 1)]
      rfl

/-- The hidden parameter names for `n` layers starting at index `i`. -/
def hiddenKeyRange : Nat → Nat → List ParamName
  | _, 0 => []
  | i, Nat.succ n =>
      .hiddenWeight i :: .hiddenBias i :: hiddenKeyRange (i + 1) n

theorem hiddenEntries_map_fst (i : Nat) (ls : List Linear) :
    (hiddenEntries i ls).map Prod.fst = hiddenKeyRange i ls.length := by
  induction ls generalizing i with
  | nil => rfl
  | cons l ls ih => simp [hiddenEntries, hiddenKeyRange, ih]

/-- State-dict keys only depend on the number of hidden layers. -/
theorem keys_eq_of_length (m m' : Network)
    (h : m.hiddenLayers.length = m'.hiddenLayers.length) :
    m.keys = m'.stateDict.map Prod.fst := by
  unfold Network.keys Network.stateDict
  simp only [List.map_append, hiddenEntries_map_fst, h, List.map_cons, List.map_nil]

/-- A freshly built `Linear` is well-formed. -/
theorem mkLinear_wf (n m : Nat) : (mkLinear n m).wf := ⟨rfl, rfl⟩

theorem build_conformsTo (ins outs : Nat) (hs : List Nat) (m : Network)
    (h : Network.build ins outs hs = some m) : m.conformsTo ins outs hs := by
  unfold Network.build at h
  cases hlast : hs.getLast? with
  | none => rw [hlast] at h; exact absurd h (by simp)
  | some hn =>
      rw [hlast] at h
      cases h
      refine ⟨?_, mkLinear_wf _ _, ?_, ?_, rfl⟩
      · intro l hl
        simp only [List.mem_map] at hl
        obtain ⟨p, _, rfl⟩ := hl
        exact mkLinear_wf _ _
      · simp [mkLinear, Function.comp_def]
      · simp [mkLinear, List.getLastD_eq_getLast?, hlast]

/-- Two layer lists conforming to the same dimension list have pairwise
matching shapes. -/
theorem shapesMatch_of_dims (src : List Linear) : ∀ (tgt : List Linear),
    src.map (fun l => (l.inF, l.outF)) = tgt.map (fun l => (l.inF, l.outF)) →
    (∀ l ∈ src, l.wf) → (∀ l ∈ tgt, l.wf) →
    ShapesMatch src tgt := by
  induction src with
  | nil =>
      intro tgt hdims _ _
      cases tgt with
      | nil => exact List.Forall₂.nil
      | cons t ts => exact absurd hdims (by simp)
  | cons s ss ih =>
      intro tgt hdims hwsrc hwtgt
      cases tgt with
      | nil => exact absurd hdims (by simp)
      | cons t ts =>
          simp only [List.map_cons, List.cons.injEq, Prod.mk.injEq] at hdims
          have hswf := hwsrc s (by simp)
          have htwf := hwtgt t (by simp)
          refine List.Forall₂.cons ⟨?_, ?_⟩ ?_
          · rw [htwf.1, hswf.1, hdims.1.1, hdims.1.2]
          · rw [htwf.2, hswf.2, hdims.1.2]
          · exact ih ts hdims.2 (fun l hl => hwsrc l (by simp [hl]))
              (fun l hl => hwtgt l (by simp [hl]))

/-- Loading the state dict of a same-architecture model succeeds and
copies every tensor pairwise. -/
theorem load_state_dict_roundtrip (m tgt : Network) (ins outs : Nat) (hs : List Nat)
    (hm : m.conformsTo ins outs hs) (ht : tgt.conformsTo ins outs hs) :
    tgt.load_state_dict m.stateDict =
      .ok { tgt with
            hiddenLayers := List.zipWith Linear.copyData tgt.hiddenLayers m.hiddenLayers,
            output := tgt.output.copyData m.output } := by
  obtain ⟨hmw, hmo, hmd, hmoi, hmoo⟩ := hm
  obtain ⟨htw, hto, htd, htoi, htoo⟩ := ht
  have hlen : tgt.hiddenLayers.length = m.hiddenLayers.length := by
    have h1 := congrArg List.length htd
    have h2 := congrArg List.length hmd
    simp only [List.length_map] at h1 h2
    omega
  have hkeys : tgt.keys = m.stateDict.map Prod.fst := keys_eq_of_length tgt m hlen
  rw [Network.load_state_dict, if_pos (by rw [hkeys]; exact fun k hk => hk),
    if_pos (by rw [hkeys]; exact fun k hk => hk)]
  have hmatch : ShapesMatch m.hiddenLayers tgt.hiddenLayers :=
    shapesMatch_of_dims _ _ (hmd.trans htd.symm) hmw htw
  rw [show m.stateDict = hiddenEntries 0 m.hiddenLayers ++
      [(ParamName.outputWeight, m.output.weight), (ParamName.outputBias, m.output.bias)]
    from rfl]
  rw [loadHiddenLayers_roundtrip _ _ _ _ hmatch]
  rw [lookupName_hiddenEntries_outputWeight, lookupName_hiddenEntries_outputBias,
    lookupName_cons_self, lookupName_cons_ne _ _ (by simp), lookupName_cons_self]
  dsimp only
  rw [show tgt.output.loadFrom m.output.weight m.output.bias =
      .ok (tgt.output.copyData m.output) by
    rw [Linear.loadFrom, if_pos, if_pos]
    · rfl
    · rw [hto.2, hmo.2, htoo, hmoo]
    · rw [hto.1, hmo.1, htoi, htoo, hmoi, hmoo]]
  rfl

/-- Copying data pairwise from `s` into an equally long `t` produces
exactly `s`'s state-dict entries. -/
theorem hiddenEntries_zipWith_copy (t s : List Linear) (i : Nat)
    (h : t.length = s.length) :
    hiddenEntries i (List.zipWith Linear.copyData t s) = hiddenEntries i s := by
  induction t generalizing s i with
  | nil =>
      cases s with
      | nil => rfl
      | cons x xs => exact absurd h (by simp)
  | cons x xs ih =>
      cases s with
      | nil => exact absurd h (by simp)
      | cons y ys =>
          simp only [List.length_cons, Nat.succ.injEq] at h
          simp only [List.zipWith_cons_cons, hiddenEntries, Linear.copyData]
          rw [ih ys (i + 1) h]

/-- The hidden sizes recorded at save time
(`[each.out_features for each in model.hidden_layers]`) recover the
architecture's hidden-size list. -/
theorem conformsTo_outF (m : Network) (ins outs : Nat) (hs : List Nat)
    (h : m.conformsTo ins outs hs) :
    m.hiddenLayers.map (·.outF) = hs := by
  have hd := h.2.2.1
  have : (m.hiddenLayers.map (fun l => (l.inF, l.outF))).map Prod.snd =
      (hiddenDims ins hs).map Prod.snd := by rw [hd]
  rw [List.map_map] at this
  rw [show ((fun p => Prod.snd p) ∘ fun l => (l.inF, l.outF)) = fun l : Linear => l.outF
    from rfl] at this
  rw [this, hiddenDims, List.map_snd_zip _ _ (by simp)]

/-- C1.  For every architecture description `A = (ins, outs, hs)` and
every Model `M` constructed from `A` (any parameter values, shapes
conforming to `A`), loading the checkpoint produced by saving `M`
together with `A` yields a Model whose parameter values are element-wise
identical to `M`'s: the two state dicts coincide. -/
theorem checkpoint_roundtrip (ins outs : Nat) (hs : List Nat) (m : Network)
    (hc : m.conformsTo ins outs hs) (hne : hs ≠ []) :
    ∃ m', load_checkpoint (saveCheckpoint ins outs m) = .ok m' ∧
      m'.stateDict = m.stateDict := by
  have houtF : m.hiddenLayers.map (·.outF) = hs := conformsTo_outF m ins outs hs hc
  have hbuild : ∃ fresh, Network.build ins outs hs = some fresh := by
    rw [Network.build, List.getLast?_eq_getLast hs hne]
    exact ⟨_, rfl⟩
  obtain ⟨fresh, hfresh⟩ := hbuild
  have hfc : fresh.conformsTo ins outs hs := build_conformsTo ins outs hs fresh hfresh
  have hload := load_state_dict_roundtrip m fresh ins outs hs hc hfc
  refine ⟨{ fresh with
      hiddenLayers := List.zipWith Linear.copyData fresh.hiddenLayers m.hiddenLayers,
      output := fresh.output.copyData m.output }, ?_, ?_⟩
  · show load_checkpoint (saveCheckpoint ins outs m) = _
    rw [load_checkpoint]
    show (do
      let ins' ← (saveCheckpoint ins outs m).getNat .input_size
      let outs' ← (saveCheckpoint ins outs m).getNat .output_size
      let hs' ← (saveCheckpoint ins outs m).getNats .hidden_layers
      match Network.build ins' outs' hs' with
      | none => Except.error "empty hidden layer list"
      | some mm => do
          let sd ← (saveCheckpoint ins outs m).getSd .state_dict
          mm.load_state_dict sd) = _
    have h1 : (saveCheckpoint ins outs m).getNat .input_size = .ok ins := rfl
    have h2 : (saveCheckpoint ins outs m).getNat .output_size = .ok outs := rfl
    have h3 : (saveCheckpoint ins outs m).getNats .hidden_layers = .ok hs := by
      rw [show (saveCheckpoint ins outs m).getNats .hidden_layers =
        .ok (m.hiddenLayers.map (·.outF)) from rfl, houtF]
    have h4 : (saveCheckpoint ins outs m).getSd .state_dict = .ok m.stateDict := rfl
    rw [h1, h2, h3]
    show (match Network.build ins outs hs with
      | none => Except.error "empty hidden layer list"
      | some mm => do
          let sd ← (saveCheckpoint ins outs m).getSd .state_dict
          mm.load_state_dict sd) = _
    rw [hfresh]
    show (do
      let sd ← (saveCheckpoint ins outs m).getSd .state_dict
      fresh.load_state_dict sd) = _
    rw [h4]
    show fresh.load_state_dict m.stateDict = _
    exact hload
  · have hlen : fresh.hiddenLayers.length = m.hiddenLayers.length := by
      have h1 := congrArg List.length hfc.2.2.1
      have h2 := congrArg List.length hc.2.2.1
      simp only [List.length_map] at h1 h2
      omega
    show Network.stateDict _ = _
    rw [Network.stateDict, Network.stateDict]
    simp only
    rw [hiddenEntries_zipWith_copy _ _ _ hlen]
    rfl

/-- A concrete trained two-hidden-layer model for architecture
`(2, 3, [4, 5])`, with pairwise distinct parameter values. -/
def mRoundtrip : Network :=
  { inputSize := 2, outputSize := 3,
    hiddenLayers :=
      [ { inF := 2, outF := 4,
          weight := { shape := [4, 2], data := [1, 2, 3, 4, 5, 6, 7, 8] },
          bias := { shape := [4], data := [9, 10, 11, 12] } },
        { inF := 4, outF := 5,
          weight := { shape := [5, 4], data := (List.range 20).map (fun n => (n : ℚ) + 13) },
          bias := { shape := [5], data := [33, 34, 35, 36, 37] } } ],
    output :=
      { inF := 5, outF := 3,
        weight := { shape := [3, 5], data := (List.range 15).map (fun n => (n : ℚ) + 38) },
        bias := { shape := [3], data := [53, 54, 55] } },
    dropoutP := 1/2, training := true }

/-- Witness for C1 at the concrete architecture `(2, 3, [4, 5])`. -/
theorem checkpoint_roundtrip_witness :
    (mRoundtrip.conformsTo 2 3 [4, 5] ∧ ([4, 5] : List Nat) ≠ []) ∧
    ∃ m', load_checkpoint (saveCheckpoint 2 3 mRoundtrip) = .ok m' ∧
      m'.stateDict = mRoundtrip.stateDict :=
  ⟨⟨by decide, by decide⟩,
    checkpoint_roundtrip 2 3 [4, 5] mRoundtrip (by decide) (by decide)⟩

/-- Loading tensors into a layer never changes its advertised
dimensions. -/
theorem loadFrom_ok_dims (l : Linear) (w b : Tensor) (l' : Linear)
    (h : l.loadFrom w b = .ok l') : l'.inF = l.inF ∧ l'.outF = l.outF := by
  rw [Linear.loadFrom] at h
  split at h
  · split at h
    · cases h; exact ⟨rfl, rfl⟩
    · exact Except.noConfusion h
  · exact Except.noConfusion h

theorem loadHiddenLayers_ok_dims (sd : StateDict) : ∀ (tgt out : List Linear) (i : Nat),
    loadHiddenLayers sd i tgt = .ok out →
    out.map (fun l => (l.inF, l.outF)) = tgt.map (fun l => (l.inF, l.outF)) := by
  intro tgt
  induction tgt with
  | nil =>
      intro out i h
      rw [loadHiddenLayers] at h
      cases h
      rfl
  | cons l ls ih =>
      intro out i h
      rw [loadHiddenLayers] at h
      split at h
      · rename_i w b hw hb
        cases hlf : l.loadFrom w b with
        | error e => rw [hlf] at h; exact Except.noConfusion h
        | ok l' =>
            rw [hlf] at h
            cases hrec : loadHiddenLayers sd (i + 1) ls with
            | error e =>
                rw [hrec] at h
                exact Except.noConfusion h
            | ok rest =>
                rw [hrec] at h
                cases h
                have hd := loadFrom_ok_dims l w b l' hlf
                simp only [List.map_cons, hd.1, hd.2, ih rest (i + 1) hrec]
      · exact Except.noConfusion h

/-- A successful `load_state_dict` preserves the module structure:
layer dimensions, dropout probability and the train/eval flag. -/
theorem load_state_dict_ok_props (m : Network) (sd : StateDict) (m' : Network)
    (h : m.load_state_dict sd = .ok m') :
    m'.hiddenLayers.map (fun l => (l.inF, l.outF)) =
      m.hiddenLayers.map (fun l => (l.inF, l.outF)) ∧
    m'.output.inF = m.output.inF ∧ m'.output.outF = m.output.outF ∧
    m'.dropoutP = m.dropoutP ∧ m'.training = m.training := by
  rw [Network.load_state_dict] at h
  split at h
  · split at h
    · cases hh : loadHiddenLayers sd 0 m.hiddenLayers with
      | error e => rw [hh] at h; exact Except.noConfusion h
      | ok hls =>
          rw [hh] at h
          split at h
          · rename_i w b hw hb
            cases ho : m.output.loadFrom w b with
            | error e => rw [ho] at h; exact Except.noConfusion h
            | ok out =>
                rw [ho] at h
                cases h
                have hd := loadFrom_ok_dims _ _ _ _ ho
                exact ⟨loadHiddenLayers_ok_dims sd _ _ _ hh, hd.1, hd.2, rfl, rfl⟩
          · exact Except.noConfusion h
    · exact Except.noConfusion h
  · exact Except.noConfusion h

/-- Appending the output pair to the hidden dimension pairs gives the
full chain of consecutive width pairs. -/
theorem hiddenDims_append_output (ins outs : Nat) (hs : List Nat) :
    hiddenDims ins hs ++ [(hs.getLastD ins, outs)] = (ins :: hs).zip (hs ++ [outs]) := by
  induction hs generalizing ins with
  | nil => rfl
  | cons a as ih =>
      simp only [hiddenDims] at ih ⊢
      simp only [List.zip_cons_cons, List.getLastD_cons, List.cons_append]
      exact congrArg (List.cons (ins, a)) (ih a)

/-- `load_checkpoint` written with explicit `Except.bind`. -/
theorem load_checkpoint_eq (ck : Checkpoint) :
    load_checkpoint ck = Except.bind (ck.getNat .input_size) (fun a =>
      Except.bind (ck.getNat .output_size) (fun b =>
        Except.bind (ck.getNats .hidden_layers) (fun c =>
          match Network.build a b c with
          | none => Except.error "empty hidden layer list"
          | some mm => Except.bind (ck.getSd .state_dict)
              (fun sd => mm.load_state_dict sd)))) := rfl

theorem build_props (ins outs : Nat) (hs : List Nat) (m : Network)
    (h : Network.build ins outs hs = some m) :
    m.training = true ∧ m.dropoutP = 1/2 := by
  rw [Network.build] at h
  split at h
  · exact Option.noConfusion h
  · cases h; exact ⟨rfl, rfl⟩

/-- C3.  Whenever `load_checkpoint` succeeds on a checkpoint carrying
architecture `(ins, outs, [h1, …, hn])`, the reconstructed Model has
exactly `n + 1` affine layers whose (input width, output width) pairs
are `(ins,h1), (h1,h2), …, (hn,outs)` pairwise. -/
theorem reconstructed_layer_dims (ck : Checkpoint) (ins outs : Nat) (hs : List Nat)
    (m : Network)
    (h1 : ck.getNat .input_size = .ok ins)
    (h2 : ck.getNat .output_size = .ok outs)
    (h3 : ck.getNats .hidden_layers = .ok hs)
    (h : load_checkpoint ck = .ok m) :
    (m.hiddenLayers.map fun l => (l.inF, l.outF)) ++ [(m.output.inF, m.output.outF)] =
      (ins :: hs).zip (hs ++ [outs]) := by
  rw [load_checkpoint_eq, h1, h2, h3] at h
  simp only [Except.bind] at h
  cases hb : Network.build ins outs hs with
  | none => rw [hb] at h; exact Except.noConfusion h
  | some fresh =>
      rw [hb] at h
      cases hsd : ck.getSd .state_dict with
      | error e =>
          rw [hsd] at h
          simp only [Except.bind] at h
          exact Except.noConfusion h
      | ok sd =>
          rw [hsd] at h
          simp only [Except.bind] at h
          have hp := load_state_dict_ok_props fresh sd m h
          have hfc := build_conformsTo ins outs hs fresh hb
          rw [hp.1, hfc.2.2.1, hp.2.1, hp.2.2.1, hfc.2.2.2.1, hfc.2.2.2.2]
          exact hiddenDims_append_output ins outs hs

/-- A placeholder network used only to extract computed values. -/
def defaultNetwork : Network :=
  { inputSize := 0, outputSize := 0, hiddenLayers := [], output := mkLinear 0 0,
    dropoutP := 0, training := true }

/-- The checkpoint saved from the concrete model `mRoundtrip`. -/
def ckConcrete : Checkpoint := saveCheckpoint 2 3 mRoundtrip

/-- The model `load_checkpoint` reconstructs from `ckConcrete`. -/
def loadedConcrete : Network :=
  ((load_checkpoint ckConcrete).toOption).getD defaultNetwork

/-- Witness for C3 at the concrete checkpoint `ckConcrete`. -/
theorem reconstructed_layer_dims_witness :
    (ckConcrete.getNat .input_size = .ok 2 ∧
     ckConcrete.getNat .output_size = .ok 3 ∧
     ckConcrete.getNats .hidden_layers = .ok [4, 5] ∧
     load_checkpoint ckConcrete = .ok loadedConcrete) ∧
    (loadedConcrete.hiddenLayers.map fun l => (l.inF, l.outF)) ++
        [(loadedConcrete.output.inF, loadedConcrete.output.outF)] =
      ((2 : Nat) :: [4, 5]).zip ([4, 5] ++ [3]) :=
  ⟨⟨rfl, rfl, rfl, rfl⟩,
    reconstructed_layer_dims ckConcrete 2 3 [4, 5] loadedConcrete rfl rfl rfl rfl⟩

/-- C10.  Whatever checkpoint it is given, a Model returned by
`load_checkpoint` is still in training mode with a `p = 0.5` dropout
layer: the loader never switches it to evaluation mode. -/
theorem loaded_model_training_mode (ck : Checkpoint) (m : Network)
    (h : load_checkpoint ck = .ok m) :
    m.training = true ∧ m.dropoutP = 1/2 := by
  rw [load_checkpoint_eq] at h
  cases hi : ck.getNat .input_size with
  | error e => rw [hi] at h; exact Except.noConfusion h
  | ok a =>
      rw [hi] at h
      simp only [Except.bind] at h
      cases ho : ck.getNat .output_size with
      | error e => rw [ho] at h; exact Except.noConfusion h
      | ok b =>
          rw [ho] at h
          simp only [Except.bind] at h
          cases hh : ck.getNats .hidden_layers with
          | error e => rw [hh] at h; exact Except.noConfusion h
          | ok c =>
              rw [hh] at h
              simp only [Except.bind] at h
              cases hb : Network.build a b c with
              | none => rw [hb] at h; exact Except.noConfusion h
              | some fresh =>
                  rw [hb] at h
                  cases hsd : ck.getSd .state_dict with
                  | error e =>
                      rw [hsd] at h
                      simp only [Except.bind] at h
                      exact Except.noConfusion h
                  | ok sd =>
                      rw [hsd] at h
                      simp only [Except.bind] at h
                      have hp := load_state_dict_ok_props fresh sd m h
                      have hbp := build_props a b c fresh hb
                      exact ⟨hp.2.2.2.2.trans hbp.1, hp.2.2.2.1.trans hbp.2⟩

/-- Witness for C10 at the concrete checkpoint `ckConcrete`. -/
theorem loaded_model_training_mode_witness :
    load_checkpoint ckConcrete = .ok loadedConcrete ∧
    loadedConcrete.training = true ∧ loadedConcrete.dropoutP = 1/2 :=
  ⟨rfl, loaded_model_training_mode ckConcrete loadedConcrete rfl⟩

theorem getNat_of_get_err (ck : Checkpoint) (k : CheckpointKey) (e : String)
    (h : ck.get k = .error e) : ck.getNat k = .error e := by
  show Except.bind (ck.get k) _ = _
  rw [h]
  rfl

theorem getNats_of_get_err (ck : Checkpoint) (k : CheckpointKey) (e : String)
    (h : ck.get k = .error e) : ck.getNats k = .error e := by
  show Except.bind (ck.get k) _ = _
  rw [h]
  rfl

theorem getSd_of_get_err (ck : Checkpoint) (k : CheckpointKey) (e : String)
    (h : ck.get k = .error e) : ck.getSd k = .error e := by
  show Except.bind (ck.get k) _ = _
  rw [h]
  rfl

/-- C6.  If any required checkpoint field — `input_size`,
`output_size`, `hidden_layers` or `state_dict` — is absent from the
record, `load_checkpoint` raises an error instead of returning a Model;
no default is ever substituted. -/
theorem missing_field_fatal (ck : Checkpoint)
    (h : ck.get .input_size = .error "KeyError" ∨
         ck.get .output_size = .error "KeyError" ∨
         ck.get .hidden_layers = .error "KeyError" ∨
         ck.get .state_dict = .error "KeyError") :
    isErr (load_checkpoint ck) = true := by
  rw [load_checkpoint_eq]
  rcases h with h | h | h | h
  · rw [getNat_of_get_err ck _ _ h]
    rfl
  · cases hi : ck.getNat .input_size with
    | error e => rfl
    | ok a =>
        simp only [Except.bind]
        rw [getNat_of_get_err ck _ _ h]
        rfl
  · cases hi : ck.getNat .input_size with
    | error e => rfl
    | ok a =>
        simp only [Except.bind]
        cases ho : ck.getNat .output_size with
        | error e => rfl
        | ok b =>
            simp only [Except.bind]
            rw [getNats_of_get_err ck _ _ h]
            rfl
  · cases hi : ck.getNat .input_size with
    | error e => rfl
    | ok a =>
        simp only [Except.bind]
        cases ho : ck.getNat .output_size with
        | error e => rfl
        | ok b =>
            simp only [Except.bind]
            cases hh : ck.getNats .hidden_layers with
            | error e => rfl
            | ok c =>
                simp only [Except.bind]
                cases hb : Network.build a b c with
                | none => rfl
                | some fresh =>
                    rw [getSd_of_get_err ck _ _ h]
                    rfl

/-- Witness for C6: the empty checkpoint record. -/
theorem missing_field_fatal_witness :
    (Checkpoint.get [] .input_size = .error "KeyError" ∨
     Checkpoint.get [] .output_size = .error "KeyError" ∨
     Checkpoint.get [] .hidden_layers = .error "KeyError" ∨
     Checkpoint.get [] .state_dict = .error "KeyError") ∧
    isErr (load_checkpoint []) = true :=
  ⟨Or.inl rfl, missing_field_fatal [] (Or.inl rfl)⟩

theorem mem_hiddenKeyRange_weight (j : Nat) : ∀ (i n : Nat),
    (ParamName.hiddenWeight j ∈ hiddenKeyRange i n ↔ i ≤ j ∧ j < i + n) := by
  intro i n
  induction n generalizing i with
  | zero => simp [hiddenKeyRange]
  | succ n ih =>
      simp only [hiddenKeyRange, List.mem_cons, ih (i + 1)]
      constructor
      · rintro (h | h | h)
        · cases h; omega
        · exact absurd h (by simp)
        · omega
      · intro h
        by_cases hj : j = i
        · exact Or.inl (by rw [hj])
        · exact Or.inr (Or.inr (by omega))

theorem conformsTo_length (m : Network) (ins outs : Nat) (hs : List Nat)
    (h : m.conformsTo ins outs hs) : m.hiddenLayers.length = hs.length := by
  have := congrArg List.length h.2.2.1
  simp only [List.length_map, hiddenDims, List.length_zip, List.length_cons] at this
  omega

theorem stateDict_map_fst (m : Network) :
    m.stateDict.map Prod.fst =
      hiddenKeyRange 0 m.hiddenLayers.length ++
        [ParamName.outputWeight, ParamName.outputBias] := by
  rw [Network.stateDict, List.map_append, hiddenEntries_map_fst]
  rfl

theorem mem_keys_weight (m : Network) (j : Nat) :
    ParamName.hiddenWeight j ∈ m.stateDict.map Prod.fst ↔
      j < m.hiddenLayers.length := by
  rw [stateDict_map_fst]
  simp [mem_hiddenKeyRange_weight]

/-- Loading hidden entries with the same count but a differing width
list hits a shape mismatch and fails. -/
theorem loadHiddenLayers_mismatch :
    ∀ (hs1 hs2 : List Nat) (pv : Nat) (src tgt : List Linear) (i : Nat) (rest : StateDict),
    src.map (fun l => (l.inF, l.outF)) = hiddenDims pv hs1 →
    tgt.map (fun l => (l.inF, l.outF)) = hiddenDims pv hs2 →
    (∀ l ∈ src, l.wf) → (∀ l ∈ tgt, l.wf) →
    hs1 ≠ hs2 → hs1.length = hs2.length →
    ∃ e, loadHiddenLayers (hiddenEntries i src ++ rest) i tgt = .error e := by
  intro hs1
  induction hs1 with
  | nil =>
      intro hs2 pv src tgt i rest _ _ _ _ hne hlen
      cases hs2 with
      | nil => exact absurd rfl hne
      | cons b bs => exact absurd hlen (by simp)
  | cons a as ih =>
      intro hs2 pv src tgt i rest hsrc htgt hwsrc hwtgt hne hlen
      cases hs2 with
      | nil => exact absurd hlen (by simp)
      | cons b bs =>
          cases src with
          | nil => exact absurd hsrc (by simp [hiddenDims])
          | cons s ss =>
              cases tgt with
              | nil => exact absurd htgt (by simp [hiddenDims])
              | cons t ts =>
                  simp only [hiddenDims, List.zip_cons_cons, List.map_cons,
                    List.cons.injEq, Prod.mk.injEq] at hsrc htgt
                  have hswf := hwsrc s (by simp)
                  have htwf := hwtgt t (by simp)
                  have hsw : s.weight.shape = [a, pv] := by
                    rw [hswf.1, hsrc.1.2, hsrc.1.1]
                  have htw : t.weight.shape = [b, pv] := by
                    rw [htwf.1, htgt.1.2, htgt.1.1]
                  rw [loadHiddenLayers]
                  rw [hiddenEntries, List.cons_append, List.cons_append,
                    lookupName_cons_self, lookupName_cons_ne _ _ (by simp),
                    lookupName_cons_self]
                  by_cases hab : a = b
                  · subst hab
                    have hload : t.loadFrom s.weight s.bias = .ok (t.copyData s) := by
                      rw [Linear.loadFrom, if_pos (by rw [htw, hsw]),
                        if_pos (by rw [htwf.2, hswf.2, htgt.1.2, hsrc.1.2])]
                      rfl
                    dsimp only
                    rw [hload]
                    have hcongr : loadHiddenLayers
                        ((ParamName.hiddenWeight i, s.weight) :: (ParamName.hiddenBias i, s.bias)
                          :: (hiddenEntries (i + 1) ss ++ rest)) (i + 1) ts =
                        loadHiddenLayers (hiddenEntries (i + 1) ss ++ rest) (i + 1) ts := by
                      apply loadHiddenLayers_congr
                      intro j hj
                      have hij : i < j := hj
                      constructor
                      · rw [lookupName_cons_ne _ _ (by simp [Nat.ne_of_lt hij]),
                          lookupName_cons_ne _ _ (by simp)]
                      · rw [lookupName_cons_ne _ _ (by simp),
                          lookupName_cons_ne _ _ (by simp [Nat.ne_of_lt hij])]
                    have hne' : as ≠ bs := fun hcontra => hne (by rw [hcontra])
                    obtain ⟨e, he⟩ := ih bs a ss ts (i + 1) rest hsrc.2 htgt.2
                      (fun l hl => hwsrc l (by simp [hl]))
                      (fun l hl => hwtgt l (by simp [hl]))
                      hne' (by simpa using hlen)
                    rw [hcongr, he]
                    exact ⟨e, rfl⟩
                  · have hload : t.loadFrom s.weight s.bias = .error "size mismatch for weight" := by
                      rw [Linear.loadFrom, if_neg]
                      rw [htw, hsw]
                      simp [hab]
                      intro hba
                      exact hab hba.symm
                    dsimp only
                    rw [hload]
                    exact ⟨_, rfl⟩

/-- C2.  If the hidden-layer widths behind a saved state dict differ
from those of the target Model, strict `load_state_dict` fails with an
explicit error (some parameter name or tensor shape necessarily
disagrees); it never silently reshapes, truncates or pads. -/
theorem mismatched_widths_load_fails (ins outs : Nat) (hs1 hs2 : List Nat)
    (m1 m2 : Network)
    (hm1 : m1.conformsTo ins outs hs1) (hm2 : m2.conformsTo ins outs hs2)
    (hne : hs1 ≠ hs2) :
    isErr (m2.load_state_dict m1.stateDict) = true := by
  have hl1 : m1.hiddenLayers.length = hs1.length := conformsTo_length _ _ _ _ hm1
  have hl2 : m2.hiddenLayers.length = hs2.length := conformsTo_length _ _ _ _ hm2
  rw [Network.load_state_dict]
  by_cases hc1 : (∀ k ∈ m2.keys, k ∈ m1.stateDict.map Prod.fst)
  · rw [if_pos hc1]
    by_cases hc2 : (∀ k ∈ m1.stateDict.map Prod.fst, k ∈ m2.keys)
    · rw [if_pos hc2]
      have hlen : hs1.length = hs2.length := by
        by_contra hne'
        rcases Nat.lt_or_ge hs1.length hs2.length with hlt | hge
        · have hmem : ParamName.hiddenWeight hs1.length ∈ m2.keys :=
            (mem_keys_weight m2 _).mpr (by omega)
          have hin := (mem_keys_weight m1 _).mp (hc1 _ hmem)
          omega
        · have hgt : hs2.length < hs1.length := by omega
          have hmem : ParamName.hiddenWeight hs2.length ∈ m1.stateDict.map Prod.fst :=
            (mem_keys_weight m1 _).mpr (by omega)
          have hin := (mem_keys_weight m2 _).mp (hc2 _ hmem)
          omega
      obtain ⟨e, he⟩ := loadHiddenLayers_mismatch hs1 hs2 ins
        m1.hiddenLayers m2.hiddenLayers 0
        [(ParamName.outputWeight, m1.output.weight), (ParamName.outputBias, m1.output.bias)]
        hm1.2.2.1 hm2.2.2.1 hm1.1 hm2.1 hne hlen
      have he' : loadHiddenLayers m1.stateDict 0 m2.hiddenLayers = .error e := he
      show isErr (Except.bind (loadHiddenLayers m1.stateDict 0 m2.hiddenLayers) _) = true
      rw [he']
      rfl
    · rw [if_neg hc2]; rfl
  · rw [if_neg hc1]; rfl

/-- A fresh model for the mismatched architecture `(2, 3, [4, 6])`. -/
def mMismatch : Network := (Network.build 2 3 [4, 6]).getD defaultNetwork

/-- Witness for C2 at the concrete architectures `[4,5]` vs `[4,6]`. -/
theorem mismatched_widths_load_fails_witness :
    (mRoundtrip.conformsTo 2 3 [4, 5] ∧ mMismatch.conformsTo 2 3 [4, 6] ∧
      ([4, 5] : List Nat) ≠ [4, 6]) ∧
    isErr (mMismatch.load_state_dict mRoundtrip.stateDict) = true :=
  ⟨⟨by decide, by decide, by decide⟩,
    mismatched_widths_load_fails 2 3 [4, 5] [4, 6] mRoundtrip mMismatch
      (by decide) (by decide) (by decide)⟩

/-! ## Part B: in-place resize versus view -/

/-- `images.resize_(64, 784)` from the one-step demo, acting on the
tensor's flattened storage: truncate to the requested element count, or
grow with uninitialised memory (an arbitrary junk stream); it never
fails, whatever the original size. -/
def resize_ (data : List ℚ) (junk : Nat → ℚ) (n : Nat) : List ℚ :=
  data.take n ++ (List.range (n - data.length)).map junk

/-- Split flattened storage into rows of width `w` (the reshape
underlying a 2-d view). -/
def chunkRows (w : Nat) (data : List ℚ) : List (List ℚ) :=
  if h : data = [] ∨ w = 0 then
    (fun _ => []) h
  else data.take w :: chunkRows w (data.drop w)
termination_by data.length
decreasing_by
  push_neg at h
  simp only [List.length_drop]
  have hlen : data.length ≠ 0 := fun hc => h.1 (List.eq_nil_of_length_eq_zero hc)
  omega

/-- `images.view(rows, -1)` from the epoch training loop: a reshape of
the same storage into `rows` rows; errors unless the element count is
divisible. -/
def view (data : List ℚ) (rows : Nat) : Option (List (List ℚ)) :=
  if rows ≠ 0 ∧ data.length % rows = 0 then some (chunkRows (data.length / rows) data)
  else none

theorem flatten_length_const (batch : List (List ℚ)) (w : Nat)
    (h : ∀ img ∈ batch, img.length = w) :
    batch.flatten.length = batch.length * w := by
  induction batch with
  | nil => simp
  | cons img rest ih =>
      simp only [List.flatten_cons, List.length_append, List.length_cons,
        h img (by simp), ih (fun i hi => h i (by simp [hi]))]
      ring

theorem chunkRows_flatten (w : Nat) (hw : w ≠ 0) (batch : List (List ℚ))
    (h : ∀ img ∈ batch, img.length = w) :
    chunkRows w batch.flatten = batch := by
  induction batch with
  | nil => rw [chunkRows]; simp
  | cons img rest ih =>
      have himg : img.length = w := h img (by simp)
      rw [List.flatten_cons, chunkRows]
      rw [dif_neg]
      · rw [List.take_left' himg, List.drop_left' himg,
          ih (fun i hi => h i (by simp [hi]))]
      · push_neg
        refine ⟨?_, hw⟩
        intro hc
        have := congrArg List.length hc
        simp [himg] at this
        omega

/-- C9.  The one-step demo's `images.resize_(64, 784)` forces exactly
`64·784` elements whatever the batch size `B`: for `B ≠ 64` it silently
drops elements (`B > 64`: the result is a proper prefix of the data) or
fabricates them (`B < 64`: junk is appended), and it never fails;
whereas the epoch loop's `images.view(B, -1)` reproduces the batch
exactly — sample count and every element preserved. -/
theorem resize_vs_view (batch : List (List ℚ)) (junk : Nat → ℚ)
    (h784 : ∀ img ∈ batch, img.length = 784)
    (hBne : batch ≠ []) (hB : batch.length ≠ 64) :
    (resize_ batch.flatten junk (64 * 784)).length = 64 * 784 ∧
    batch.flatten.length = batch.length * 784 ∧
    batch.length * 784 ≠ 64 * 784 ∧
    (64 < batch.length → ∃ dropped, dropped ≠ [] ∧
        batch.flatten = resize_ batch.flatten junk (64 * 784) ++ dropped) ∧
    (batch.length < 64 → ∃ pad, pad ≠ [] ∧
        resize_ batch.flatten junk (64 * 784) = batch.flatten ++ pad) ∧
    view batch.flatten batch.length = some batch := by
  have hflat : batch.flatten.length = batch.length * 784 :=
    flatten_length_const batch 784 h784
  have hBpos : batch.length ≠ 0 := fun hc => hBne (List.eq_nil_of_length_eq_zero hc)
  refine ⟨?_, hflat, ?_, ?_, ?_, ?_⟩
  · rw [resize_]
    simp only [List.length_append, List.length_take, List.length_map, List.length_range]
    omega
  · intro hc
    have : batch.length = 64 := by omega
    exact hB this
  · intro hgt
    refine ⟨batch.flatten.drop (64 * 784), ?_, ?_⟩
    · intro hc
      have := congrArg List.length hc
      simp only [List.length_drop, List.length_nil, hflat] at this
      omega
    · rw [resize_, show 64 * 784 - batch.flatten.length = 0 by omega]
      simp only [List.range_zero, List.map_nil, List.append_nil]
      exact (List.take_append_drop (64 * 784) batch.flatten).symm
  · intro hlt
    refine ⟨(List.range (64 * 784 - batch.flatten.length)).map junk, ?_, ?_⟩
    · intro hc
      have := congrArg List.length hc
      simp only [List.length_map, List.length_range, List.length_nil, hflat] at this
      omega
    · rw [resize_, List.take_of_length_le (by omega)]
  · rw [view, if_pos ⟨hBpos, by rw [hflat]; exact Nat.mul_mod_right _ _⟩]
    rw [hflat, Nat.mul_div_cancel_left _ (Nat.pos_of_ne_zero hBpos)]
    rw [chunkRows_flatten 784 (by omega) batch h784]

/-- A three-sample batch of constant images (batch size 3 uses the
last, short batch of a 60000-image epoch with batch size 64 as its
shape). -/
def batch3 : List (List ℚ) := List.replicate 3 (List.replicate 784 0)

theorem batch3_lengths : ∀ img ∈ batch3, img.length = 784 := by
  intro img h
  rw [batch3] at h
  rw [List.eq_of_mem_replicate h, List.length_replicate]

theorem batch3_ne_nil : batch3 ≠ [] := by
  intro h
  have hlen := congrArg List.length h
  rw [batch3, List.length_replicate, List.length_nil] at hlen
  exact absurd hlen (by omega)

theorem batch3_len_ne : batch3.length ≠ 64 := by
  rw [batch3, List.length_replicate]
  omega

/-- Witness for C9 at the concrete batch `batch3`. -/
theorem resize_vs_view_witness :
    ((∀ img ∈ batch3, img.length = 784) ∧ batch3 ≠ [] ∧ batch3.length ≠ 64) ∧
    ((resize_ batch3.flatten (fun _ => 0) (64 * 784)).length = 64 * 784 ∧
     batch3.flatten.length = batch3.length * 784 ∧
     batch3.length * 784 ≠ 64 * 784 ∧
     (64 < batch3.length → ∃ dropped, dropped ≠ [] ∧
         batch3.flatten = resize_ batch3.flatten (fun _ => 0) (64 * 784) ++ dropped) ∧
     (batch3.length < 64 → ∃ pad, pad ≠ [] ∧
         resize_ batch3.flatten (fun _ => 0) (64 * 784) = batch3.flatten ++ pad) ∧
     view batch3.flatten batch3.length = some batch3) :=
  ⟨⟨batch3_lengths, batch3_ne_nil, batch3_len_ne⟩,
    resize_vs_view batch3 (fun _ => 0) batch3_lengths batch3_ne_nil batch3_len_ne⟩

/-! ## Part C: real-valued semantics of the training notebook -/

noncomputable section

open scoped BigOperators

/-- A real vector indexed by `Fin n` (float tensors are modelled over
`ℝ`). -/
abbrev Vec (n : Nat) := Fin n → ℝ

/-- A real matrix. -/
abbrev Mat (m n : Nat) := Fin m → Fin n → ℝ

/-- `nn.ReLU()`. -/
def relu (x : ℝ) : ℝ := max x 0

/-- The derivative autograd uses for `relu` (with slope `0` at the
kink). -/
def reluDeriv (x : ℝ) : ℝ := if 0 < x then 1 else 0

/-- `nn.Linear`: the affine map `x ↦ W x + b`. -/
def affine {m n : Nat} (W : Mat m n) (b : Vec m) (x : Vec n) : Vec m :=
  fun i => (∑ j, W i j * x j) + b i

/-- `nn.LogSoftmax(dim=1)` applied to one sample's logits. -/
def logSoftmax {n : Nat} (z : Vec n) : Vec n :=
  fun i => z i - Real.log (∑ j, Real.exp (z j))

/-- The softmax probabilities (these appear in the gradient of the
log-softmax/NLL composition). -/
def softmax {n : Nat} (z : Vec n) : Vec n :=
  fun i => Real.exp (z i) / (∑ j, Real.exp (z j))

/-- The parameters of the training notebook's model
`nn.Sequential(Linear(784,128), ReLU, Linear(128,64), ReLU,
Linear(64,10), LogSoftmax(dim=1))`. -/
structure Params where
  W1 : Mat 128 784
  b1 : Vec 128
  W2 : Mat 64 128
  b2 : Vec 64
  W3 : Mat 10 64
  b3 : Vec 10

/-- First pre-activation. -/
def pre1 (p : Params) (x : Vec 784) : Vec 128 := affine p.W1 p.b1 x

/-- First hidden activation. -/
def act1 (p : Params) (x : Vec 784) : Vec 128 := fun l => relu (pre1 p x l)

/-- Second pre-activation. -/
def pre2 (p : Params) (x : Vec 784) : Vec 64 := affine p.W2 p.b2 (act1 p x)

/-- Second hidden activation. -/
def act2 (p : Params) (x : Vec 784) : Vec 64 := fun k => relu (pre2 p x k)

/-- The output-layer logits. -/
def logits (p : Params) (x : Vec 784) : Vec 10 := affine p.W3 p.b3 (act2 p x)

/-- `model(x)`: the per-sample log-probabilities produced by the
sequential stack. -/
def modelOut (p : Params) (x : Vec 784) : Vec 10 := logSoftmax (logits p x)

/-- `nn.NLLLoss()` with its default mean reduction over a batch of
(flattened input, label) samples: the mean negative log-probability of
the true class, read directly off the log-probability outputs. -/
def nllLoss (p : Params) (b : List (Vec 784 × Fin 10)) : ℝ :=
  (b.map fun s => -(modelOut p s.1 s.2)).sum / b.length

/-- Backprop: gradient of the per-sample loss in the logits
(softmax minus the one-hot label). -/
def delta3 (p : Params) (x : Vec 784) (y : Fin 10) : Vec 10 :=
  fun j => softmax (logits p x) j - (if j = y then 1 else 0)

/-- Backprop: error signal at the second hidden layer. -/
def delta2 (p : Params) (x : Vec 784) (y : Fin 10) : Vec 64 :=
  fun k => (∑ j, p.W3 j k * delta3 p x y j) * reluDeriv (pre2 p x k)

/-- Backprop: error signal at the first hidden layer. -/
def delta1 (p : Params) (x : Vec 784) (y : Fin 10) : Vec 128 :=
  fun l => (∑ k, p.W2 k l * delta2 p x y k) * reluDeriv (pre1 p x l)

/-- The gradient accumulators (`.grad` fields) of all six parameter
tensors. -/
structure Grads where
  gW1 : Mat 128 784
  gb1 : Vec 128
  gW2 : Mat 64 128
  gb2 : Vec 64
  gW3 : Mat 10 64
  gb3 : Vec 10

/-- `optimizer.zero_grad()`: every accumulator reset to zero. -/
def zeroGrads : Grads :=
  { gW1 := fun _ _ => 0, gb1 := fun _ => 0, gW2 := fun _ _ => 0,
    gb2 := fun _ => 0, gW3 := fun _ _ => 0, gb3 := fun _ => 0 }

/-- Pointwise accumulation of gradients (autograd adds onto the
existing `.grad` buffers). -/
def addGrads (g h : Grads) : Grads :=
  { gW1 := fun l i => g.gW1 l i + h.gW1 l i,
    gb1 := fun l => g.gb1 l + h.gb1 l,
    gW2 := fun k l => g.gW2 k l + h.gW2 k l,
    gb2 := fun k => g.gb2 k + h.gb2 k,
    gW3 := fun j k => g.gW3 j k + h.gW3 j k,
    gb3 := fun j => g.gb3 j + h.gb3 j }

/-- The chain-rule gradients of one sample's NLL-of-log-softmax loss
with respect to every parameter — exactly what
`loss.backward()` computes through autograd. -/
def sampleGrads (p : Params) (x : Vec 784) (y : Fin 10) : Grads :=
  { gW1 := fun l i => delta1 p x y l * x i,
    gb1 := fun l => delta1 p x y l,
    gW2 := fun k l => delta2 p x y k * act1 p x l,
    gb2 := fun k => delta2 p x y k,
    gW3 := fun j k => delta3 p x y j * act2 p x k,
    gb3 := fun j => delta3 p x y j }

/-- Gradients of the batch-mean loss: the mean of the per-sample
gradients. -/
def batchGrads (p : Params) (b : List (Vec 784 × Fin 10)) : Grads :=
  { gW1 := fun l i => (b.map fun s => (sampleGrads p s.1 s.2).gW1 l i).sum / b.length,
    gb1 := fun l => (b.map fun s => (sampleGrads p s.1 s.2).gb1 l).sum / b.length,
    gW2 := fun k l => (b.map fun s => (sampleGrads p s.1 s.2).gW2 k l).sum / b.length,
    gb2 := fun k => (b.map fun s => (sampleGrads p s.1 s.2).gb2 k).sum / b.length,
    gW3 := fun j k => (b.map fun s => (sampleGrads p s.1 s.2).gW3 j k).sum / b.length,
    gb3 := fun j => (b.map fun s => (sampleGrads p s.1 s.2).gb3 j).sum / b.length }

/-- `optimizer.step()` for plain `optim.SGD(lr)`:
`θ ← θ − lr · θ.grad` on every parameter. -/
def sgdUpdate (lr : ℝ) (p : Params) (g : Grads) : Params :=
  { W1 := fun l i => p.W1 l i - lr * g.gW1 l i,
    b1 := fun l => p.b1 l - lr * g.gb1 l,
    W2 := fun k l => p.W2 k l - lr * g.gW2 k l,
    b2 := fun k => p.b2 k - lr * g.gb2 k,
    W3 := fun j k => p.W3 j k - lr * g.gW3 j k,
    b3 := fun j => p.b3 j - lr * g.gb3 j }

/-- A raw batch as the loader yields it: 28×28 images with labels. -/
abbrev RawBatch := List ((Fin 28 → Fin 28 → ℝ) × Fin 10)

/-- `images.view(images.shape[0], -1)` on one image: row-major
flattening of the 28×28 grid to 784 entries. -/
def flatten784 (img : Fin 28 → Fin 28 → ℝ) : Vec 784 :=
  fun i => img ⟨i.val / 28, by omega⟩ ⟨i.val % 28, by omega⟩

/-- Flatten a whole batch. -/
def flattenBatch (b : RawBatch) : List (Vec 784 × Fin 10) :=
  b.map fun s => (flatten784 s.1, s.2)

/-- The loop state carried across training steps: the parameters, their
gradient accumulators and the running loss. -/
structure TrainState where
  params : Params
  grads : Grads
  runningLoss : ℝ

/-- The operations of one step of the epoch loop, in the order the
source performs them. -/
inductive StepOp where
  | drawBatch
  | flattenImages
  | zeroGradients
  | forwardPass
  | computeLoss
  | backwardPass
  | optimizerStep
  | accumulateLoss
deriving DecidableEq, Repr

/-- One iteration of the epoch training loop:
`for images, labels in trainloader:` draws the batch, then
`images.view(images.shape[0], -1)`, `optimizer.zero_grad()`,
`output = model(images)`, `loss = criterion(output, labels)`,
`loss.backward()`, `optimizer.step()`,
`running_loss += loss.item()` — returning the new state together with
the trace of operations in execution order. -/
def trainStep (lr : ℝ) (st : TrainState) (batch : RawBatch) : TrainState × List StepOp :=
  let images := flattenBatch batch
  let g0 := zeroGrads
  let outputs := images.map fun s => (modelOut st.params s.1, s.2)
  let loss := (outputs.map fun o => -(o.1 o.2)).sum / outputs.length
  let g1 := addGrads g0 (batchGrads st.params images)
  let p1 := sgdUpdate lr st.params g1
  ({ params := p1, grads := g1, runningLoss := st.runningLoss + loss },
   [.drawBatch, .flattenImages, .zeroGradients, .forwardPass, .computeLoss,
    .backwardPass, .optimizerStep, .accumulateLoss])

end

theorem addGrads_zero (g : Grads) : addGrads zeroGrads g = g := by
  cases g
  simp only [addGrads, zeroGrads, zero_add]

/-- The collapsed form of one training step — shared by the claims
about the step. -/
theorem trainStep_closed (lr : ℝ) (st : TrainState) (batch : RawBatch) :
    (trainStep lr st batch).1.params =
      sgdUpdate lr st.params (batchGrads st.params (flattenBatch batch)) ∧
    (trainStep lr st batch).1.grads = batchGrads st.params (flattenBatch batch) ∧
    (trainStep lr st batch).1.runningLoss =
      st.runningLoss + nllLoss st.params (flattenBatch batch) := by
  refine ⟨?_, ?_, ?_⟩
  · show sgdUpdate lr st.params
        (addGrads zeroGrads (batchGrads st.params (flattenBatch batch))) = _
    rw [addGrads_zero]
  · show addGrads zeroGrads _ = _
    exact addGrads_zero _
  · show st.runningLoss + _ = st.runningLoss + nllLoss st.params (flattenBatch batch)
    congr 1
    rw [nllLoss, List.map_map, List.length_map]
    rfl

/-- C4.  One step of the epoch training loop performs exactly, and in
exactly this order: draw the next batch, flatten it to width 784, zero
all gradient accumulators, run the forward pass, compute the scalar
loss, backpropagate, apply one SGD update, and accumulate the loss.
Semantically: the new gradients are the fresh batch gradients
(independent of the stale accumulators, since zeroing precedes the
backward pass), the parameters receive exactly one SGD update with
those gradients, and the accumulated loss is the pre-update loss. -/
theorem training_step_order_and_semantics (lr : ℝ) (st : TrainState) (batch : RawBatch) :
    (trainStep lr st batch).2 =
      [StepOp.drawBatch, StepOp.flattenImages, StepOp.zeroGradients, StepOp.forwardPass,
       StepOp.computeLoss, StepOp.backwardPass, StepOp.optimizerStep,
       StepOp.accumulateLoss] ∧
    (trainStep lr st batch).1.params =
      sgdUpdate lr st.params (batchGrads st.params (flattenBatch batch)) ∧
    (trainStep lr st batch).1.grads = batchGrads st.params (flattenBatch batch) ∧
    (trainStep lr st batch).1.runningLoss =
      st.runningLoss + nllLoss st.params (flattenBatch batch) :=
  ⟨rfl, trainStep_closed lr st batch⟩

/-- C5.  The model's output is log-probabilities: the stack is affine →
ReLU → affine → ReLU → affine → log-softmax, each sample's
exponentiated outputs sum to 1, and the training loss is the batch mean
of the negative log-probability of the true class, taken directly from
the log-probability outputs with no further logarithm. -/
theorem logprob_output_and_nll (p : Params) (x : Vec 784) (b : List (Vec 784 × Fin 10)) :
    modelOut p x = logSoftmax (affine p.W3 p.b3 (fun k =>
      relu (affine p.W2 p.b2 (fun l => relu (affine p.W1 p.b1 x l)) k))) ∧
    (∑ i, Real.exp (modelOut p x i)) = 1 ∧
    nllLoss p b = (b.map fun s => -(modelOut p s.1 s.2)).sum / b.length := by
  refine ⟨rfl, ?_, rfl⟩
  have hS : (0:ℝ) < ∑ j, Real.exp (logits p x j) :=
    Finset.sum_pos (fun j _ => Real.exp_pos _) ⟨0, Finset.mem_univ 0⟩
  unfold modelOut logSoftmax
  simp only [Real.exp_sub, Real.exp_log hS]
  rw [← Finset.sum_div, div_self (ne_of_gt hS)]

noncomputable section

/-! ### The validation phase of `fc_model.train` (modelled from the spec) -/

/-- Modelled from the spec: `nn.Dropout(p=0.5)` as used by
`fc_model.Network` — active only in training mode, where each kept unit
is rescaled by `1/(1-p) = 2` under an explicit Bernoulli keep-mask;
the identity in evaluation mode. -/
def dropout {n : Nat} (training : Bool) (mask : Fin n → Bool) (v : Vec n) : Vec n :=
  fun i => if training then (if mask i then 2 * v i else 0) else v i

/-- The parameters of the `fc_model.Network(784, 10, [512, 256, 128])`
instance trained by the saving-and-loading notebook. -/
structure FCParams where
  W1 : Mat 512 784
  b1 : Vec 512
  W2 : Mat 256 512
  b2 : Vec 256
  W3 : Mat 128 256
  b3 : Vec 128
  Wout : Mat 10 128
  bout : Vec 10

/-- One keep-mask per hidden dropout site. -/
structure DropMasks where
  m1 : Fin 512 → Bool
  m2 : Fin 256 → Bool
  m3 : Fin 128 → Bool

/-- Modelled from the spec: the forward pass of `fc_model.Network`
(affine → ReLU → dropout for each hidden layer, then affine →
log-softmax), parameterized by the module's train/eval flag and the
dropout masks drawn for this call. -/
def fcForward (training : Bool) (mk : DropMasks) (p : FCParams) (x : Vec 784) : Vec 10 :=
  let h1 := dropout training mk.m1 (fun i => relu (affine p.W1 p.b1 x i))
  let h2 := dropout training mk.m2 (fun i => relu (affine p.W2 p.b2 h1 i))
  let h3 := dropout training mk.m3 (fun i => relu (affine p.W3 p.b3 h2 i))
  logSoftmax (affine p.Wout p.bout h3)

/-- The all-keep masks (irrelevant in evaluation mode). -/
def evalMasks : DropMasks :=
  { m1 := fun _ => true, m2 := fun _ => true, m3 := fun _ => true }

/-- The first index attaining the maximum output —
`ps.max(dim=1)[1]`. -/
def argmax10 (v : Vec 10) : Fin 10 :=
  open Classical in
  (Finset.univ.filter fun i => ∀ j, v j ≤ v i).min' (by
    obtain ⟨i, _, hi⟩ := Finset.exists_max_image Finset.univ v ⟨0, Finset.mem_univ 0⟩
    exact ⟨i, Finset.mem_filter.mpr ⟨Finset.mem_univ i, fun j => hi j (Finset.mem_univ j)⟩⟩)

/-- The metrics the validation pass reports. -/
structure ValReport where
  valLoss : ℝ
  valAccuracy : ℝ

/-- Modelled from the spec: the validation pass run by
`fc_model.train` under `torch.no_grad()`: score the full validation set
in evaluation mode and report the mean loss and the fraction of samples
whose arg-max prediction equals the label.  It reads the parameters
only: it can touch neither them nor the gradient accumulators. -/
def validation (p : FCParams) (valSet : List (Vec 784 × Fin 10)) : ValReport :=
  { valLoss := (valSet.map fun s => -(fcForward false evalMasks p s.1 s.2)).sum / valSet.length,
    valAccuracy :=
      ((valSet.filter fun s => argmax10 (fcForward false evalMasks p s.1) = s.2).length : ℝ)
        / valSet.length }

/-- The state of the `fc_model.train` loop. -/
structure LoopState where
  params : FCParams
  gradAccum : FCParams
  training : Bool
  steps : Nat
  runningLoss : ℝ
  reports : List ValReport

/-- Events of the `fc_model.train` loop, in execution order. -/
inductive LoopEvent where
  | step (n : Nat)
  | setMode (training : Bool)
  | validated (r : ValReport)

/-- Modelled from the spec: the validation phase of `fc_model.train`:
`model.eval()`, then the validation pass under `torch.no_grad()`, then
`model.train()` before training resumes. -/
def validationPhase (valSet : List (Vec 784 × Fin 10)) (st : LoopState) :
    LoopState × List LoopEvent :=
  let st1 := { st with training := false }
  let r := validation st1.params valSet
  let st2 := { st1 with training := true, reports := st1.reports ++ [r] }
  (st2, [.setMode false, .validated r, .setMode true])

/-- Modelled from the spec: one epoch of `fc_model.train`, abstract in
the per-batch optimisation step `upd` (which yields new parameters, new
gradient accumulators and the batch loss): every `interval` steps the
validation phase runs. -/
def fcTrainEpoch (upd : FCParams → List (Vec 784 × Fin 10) → FCParams × FCParams × ℝ)
    (interval : Nat) (valSet : List (Vec 784 × Fin 10)) :
    List (List (Vec 784 × Fin 10)) → LoopState → LoopState × List LoopEvent
  | [], st => (st, [])
  | b :: bs, st =>
      let r := upd st.params b
      let st1 : LoopState :=
        { st with
          params := r.1
          gradAccum := r.2.1
          steps := st.steps + 1
          runningLoss := st.runningLoss + r.2.2 }
      if st1.steps % interval = 0 then
        let v := validationPhase valSet st1
        let rest := fcTrainEpoch upd interval valSet bs v.1
        (rest.1, LoopEvent.step st1.steps :: (v.2 ++ rest.2))
      else
        let rest := fcTrainEpoch upd interval valSet bs st1
        (rest.1, LoopEvent.step st1.steps :: rest.2)

/-- The mode discipline the loop must respect: a validation pass occurs
only right after a training step whose index is a multiple of the
interval, bracketed by a switch to evaluation mode before and a switch
back to training mode after. -/
inductive WellScheduled (interval : Nat) : List LoopEvent → Prop where
  | nil : WellScheduled interval []
  | stepOnly (n : Nat) (rest : List LoopEvent) (h : n % interval ≠ 0)
      (hrest : WellScheduled interval rest) :
      WellScheduled interval (.step n :: rest)
  | stepVal (n : Nat) (r : ValReport) (rest : List LoopEvent) (h : n % interval = 0)
      (hrest : WellScheduled interval rest) :
      WellScheduled interval
        (.step n :: .setMode false :: .validated r :: .setMode true :: rest)

end

/-- C7.  Every `interval` steps, `fc_model.train` (modelled from the
spec) switches the model to evaluation mode — where the forward pass
ignores the dropout masks entirely — runs the full validation set
through the pure `validation` pass (which can touch neither parameters
nor gradient accumulators), reporting the mean validation loss and the
fraction of arg-max-correct samples, and switches back to training mode
before training resumes; the loop's event trace is well-scheduled. -/
theorem validation_interval_contract :
    (∀ (valSet : List (Vec 784 × Fin 10)) (st : LoopState),
      validationPhase valSet st =
        ({ st with training := true,
                   reports := st.reports ++ [validation st.params valSet] },
         [LoopEvent.setMode false, LoopEvent.validated (validation st.params valSet),
          LoopEvent.setMode true])) ∧
    (∀ (mk mk' : DropMasks) (p : FCParams) (x : Vec 784),
      fcForward false mk p x = fcForward false mk' p x) ∧
    (∀ (p : FCParams) (valSet : List (Vec 784 × Fin 10)),
      (validation p valSet).valLoss =
        (valSet.map fun s => -(fcForward false evalMasks p s.1 s.2)).sum / valSet.length ∧
      (validation p valSet).valAccuracy =
        ((valSet.filter fun s =>
            argmax10 (fcForward false evalMasks p s.1) = s.2).length : ℝ) / valSet.length) ∧
    (∀ (upd : FCParams → List (Vec 784 × Fin 10) → FCParams × FCParams × ℝ)
       (interval : Nat) (valSet : List (Vec 784 × Fin 10))
       (batches : List (List (Vec 784 × Fin 10))) (st : LoopState),
      0 < interval →
      WellScheduled interval (fcTrainEpoch upd interval valSet batches st).2) := by
  refine ⟨fun valSet st => rfl, ?_, fun p valSet => ⟨rfl, rfl⟩, ?_⟩
  · intro mk mk' p x
    have hd : ∀ {n : Nat} (mask : Fin n → Bool) (v : Vec n), dropout false mask v = v := by
      intro n mask v
      funext i
      simp [dropout]
    simp only [fcForward, hd]
  · intro upd interval valSet batches st hpos
    induction batches generalizing st with
    | nil => exact WellScheduled.nil
    | cons b bs ih =>
        by_cases h : (st.steps + 1) % interval = 0
        · show WellScheduled interval (fcTrainEpoch upd interval valSet (b :: bs) st).2
          rw [fcTrainEpoch]
          simp only [h, if_pos]
          exact WellScheduled.stepVal _ _ _ h (ih _)
        · show WellScheduled interval (fcTrainEpoch upd interval valSet (b :: bs) st).2
          rw [fcTrainEpoch]
          simp only [h, if_neg, if_false]
          exact WellScheduled.stepOnly _ _ h (ih _)

/-- The all-zero `fc_model` parameter set. -/
def fcZero : FCParams :=
  { W1 := fun _ _ => 0, b1 := fun _ => 0, W2 := fun _ _ => 0, b2 := fun _ => 0,
    W3 := fun _ _ => 0, b3 := fun _ => 0, Wout := fun _ _ => 0, bout := fun _ => 0 }

/-- An initial loop state. -/
def loopState0 : LoopState :=
  { params := fcZero, gradAccum := fcZero, training := true, steps := 0,
    runningLoss := 0, reports := [] }

/-- A trivial optimisation step (the scheduling property holds for
every step function). -/
def updId : FCParams → List (Vec 784 × Fin 10) → FCParams × FCParams × ℝ :=
  fun p _ => (p, p, 0)

/-- Witness for C7 at a concrete interval, batch list and state. -/
theorem validation_interval_contract_witness :
    0 < 1 ∧ WellScheduled 1 (fcTrainEpoch updId 1 [] [[]] loopState0).2 :=
  ⟨Nat.one_pos,
    validation_interval_contract.2.2.2 updId 1 [] [[]] loopState0 Nat.one_pos⟩

attribute [ext] Grads

/-! ### Forward and backward passes on sparsely supported parameters -/

theorem pre1_zero_input (p : Params) (x : Vec 784) (hx : ∀ i, x i = 0) :
    ∀ l, pre1 p x l = p.b1 l := by
  intro l
  unfold pre1 affine
  rw [Finset.sum_congr rfl (fun j _ => by rw [hx j, mul_zero]),
    Finset.sum_const_zero, zero_add]

theorem act1_zero (p : Params) (x : Vec 784) (hx : ∀ i, x i = 0)
    (hb1 : ∀ l, p.b1 l ≤ 0) : ∀ l, act1 p x l = 0 := by
  intro l
  unfold act1
  rw [pre1_zero_input p x hx l, relu, max_eq_right (hb1 l)]

theorem pre2_eq_b2 (p : Params) (x : Vec 784) (hW2 : ∀ k l, p.W2 k l = 0) :
    ∀ k, pre2 p x k = p.b2 k := by
  intro k
  unfold pre2 affine
  rw [Finset.sum_congr rfl (fun l _ => by rw [hW2 k l, zero_mul]),
    Finset.sum_const_zero, zero_add]

theorem act2_sparse (p : Params) (x : Vec 784) (hW2 : ∀ k l, p.W2 k l = 0)
    (hb2 : ∀ k, k ≠ 0 → p.b2 k ≤ 0) :
    ∀ k, act2 p x k = if k = 0 then relu (p.b2 0) else 0 := by
  intro k
  unfold act2
  rw [pre2_eq_b2 p x hW2 k]
  by_cases hk : k = 0
  · rw [if_pos hk, hk]
  · rw [if_neg hk, relu, max_eq_right (hb2 k hk)]

/-- With zero second-layer weights and inactive non-head hidden units,
the logits depend only on the head hidden unit. -/
theorem logits_sparse (p : Params) (x : Vec 784) (hW2 : ∀ k l, p.W2 k l = 0)
    (hb2 : ∀ k, k ≠ 0 → p.b2 k ≤ 0) :
    ∀ j, logits p x j = p.W3 j 0 * relu (p.b2 0) + p.b3 j := by
  intro j
  unfold logits affine
  have hterm : ∀ k, p.W3 j k * act2 p x k =
      if k = (0 : Fin 64) then p.W3 j 0 * relu (p.b2 0) else 0 := by
    intro k
    rw [act2_sparse p x hW2 hb2 k]
    by_cases hk : k = 0
    · rw [if_pos hk, if_pos hk, hk]
    · rw [if_neg hk, if_neg hk, mul_zero]
  rw [Finset.sum_congr rfl (fun k _ => hterm k), Finset.sum_ite_eq' Finset.univ
    (0 : Fin 64) (fun _ => p.W3 j 0 * relu (p.b2 0)), if_pos (Finset.mem_univ _)]

theorem delta2_sparse (p : Params) (x : Vec 784) (y : Fin 10)
    (hW2 : ∀ k l, p.W2 k l = 0) (hb2 : ∀ k, k ≠ 0 → p.b2 k ≤ 0) :
    ∀ k, k ≠ 0 → delta2 p x y k = 0 := by
  intro k hk
  unfold delta2
  rw [pre2_eq_b2 p x hW2 k, reluDeriv, if_neg (not_lt.mpr (hb2 k hk)), mul_zero]

theorem delta1_zero (p : Params) (x : Vec 784) (y : Fin 10)
    (hW2 : ∀ k l, p.W2 k l = 0) : ∀ l, delta1 p x y l = 0 := by
  intro l
  unfold delta1
  rw [Finset.sum_congr rfl (fun k _ => by rw [hW2 k l, zero_mul]),
    Finset.sum_const_zero, zero_mul]

/-- On a constant batch the mean gradient is the single-sample
gradient. -/
theorem batchGrads_replicate (p : Params) (s : Vec 784 × Fin 10) (n : Nat) (hn : n ≠ 0) :
    batchGrads p (List.replicate n s) = sampleGrads p s.1 s.2 := by
  have hnr : ((n : ℝ)) ≠ 0 := Nat.cast_ne_zero.mpr hn
  have key : ∀ (f : (Vec 784 × Fin 10) → ℝ),
      ((List.replicate n s).map f).sum / ((List.replicate n s).length : ℝ) = f s := by
    intro f
    rw [List.map_replicate, List.sum_replicate, List.length_replicate, nsmul_eq_mul,
      mul_comm, mul_div_assoc, div_self hnr, mul_one]
  ext <;> exact key _

/-- On a constant batch the mean loss is the single-sample loss. -/
theorem nllLoss_replicate (p : Params) (s : Vec 784 × Fin 10) (n : Nat) (hn : n ≠ 0) :
    nllLoss p (List.replicate n s) = -(modelOut p s.1 s.2) := by
  have hnr : ((n : ℝ)) ≠ 0 := Nat.cast_ne_zero.mpr hn
  unfold nllLoss
  rw [List.map_replicate, List.sum_replicate, List.length_replicate, nsmul_eq_mul,
    mul_comm, mul_div_assoc, div_self hnr, mul_one]

-- ================================================================
-- C8: one optimiser step re-scored on the same batch
-- ================================================================

noncomputable section

/-- An all-black 28×28 image. -/
def cexImage : Fin 28 → Fin 28 → ℝ := fun _ _ => 0

/-- A full-size batch (64 samples, as the loader yields) of black
images labelled 0. -/
def cexBatch : RawBatch := List.replicate 64 (cexImage, (0 : Fin 10))

/-- The flattened black image. -/
def cexX : Vec 784 := fun _ => 0

/-- A parameter setting on which one SGD step at the notebook's
learning rate 0.003 overshoots: the only active path through the
network runs through hidden unit 0 of the second hidden layer, whose
large outgoing weights (±100) make the loss surface extremely steep in
that unit's bias. -/
def cexParams : Params :=
  { W1 := fun _ _ => 0
    b1 := fun _ => -1
    W2 := fun _ _ => 0
    b2 := fun k => if k = 0 then 11/100 else -1
    W3 := fun j k =>
      if k = 0 then (if j = 1 then 100 else if j = 2 then -100 else 0) else 0
    b3 := fun j => if j = 1 then -10 else if j = 2 then 10 else 0 }

/-- The training state holding `cexParams`. -/
def cexState : TrainState :=
  { params := cexParams, grads := zeroGrads, runningLoss := 0 }

end

/-- Flattening the counterexample batch. -/
theorem flattenBatch_cex :
    flattenBatch cexBatch = List.replicate 64 (cexX, (0 : Fin 10)) := by
  rw [show cexBatch = List.replicate 64 (cexImage, (0 : Fin 10)) from rfl,
    flattenBatch, List.map_replicate]
  rfl

theorem expBound1 : (2.7182:ℝ) < Real.exp 1 := by
  linarith [Real.exp_one_gt_d9]

theorem expBound2 : Real.exp 1 < 2.7183 := by
  linarith [Real.exp_one_lt_d9]

theorem expInvBound1 : (0.3676:ℝ) < (Real.exp 1)⁻¹ := by
  have hpos : (0:ℝ) < Real.exp 1 := Real.exp_pos 1
  have hmul : Real.exp 1 * (Real.exp 1)⁻¹ = 1 := mul_inv_cancel₀ (ne_of_gt hpos)
  nlinarith [expBound2, inv_pos.mpr hpos]

theorem expInvBound2 : (Real.exp 1)⁻¹ < 0.368 := by
  have hpos : (0:ℝ) < Real.exp 1 := Real.exp_pos 1
  have hmul : Real.exp 1 * (Real.exp 1)⁻¹ = 1 := mul_inv_cancel₀ (ne_of_gt hpos)
  nlinarith [expBound1, inv_pos.mpr hpos]

theorem expCubeBound : (11.09:ℝ) < Real.exp 3 := by
  have h27 : Real.exp 3 = Real.exp 1 * Real.exp 1 * Real.exp 1 := by
    rw [← Real.exp_add, ← Real.exp_add]
    norm_num
  nlinarith [expBound1, Real.exp_pos 1]

set_option maxHeartbeats 4000000 in
/-- Counterexample to C8 as stated: at the notebook's own learning
rate `lr = 0.003`, one training step on the batch `cexBatch` from the
state `cexState` strictly INCREASES the loss re-scored on that same
batch.  The SGD step moves the head hidden unit's bias in the descent
direction, but the step is so large relative to the curvature induced
by the ±100 output weights that the logit of class 2 overshoots from
−1 to above 5, while class 0 (the true class) stays near 0: the loss
rises from `log(8 + e + 1/e) < 3` to more than 5 − 0.1 > 4.9. -/
theorem cex_loss_increases :
    nllLoss cexState.params (flattenBatch cexBatch) <
      nllLoss (trainStep (3/1000) cexState cexBatch).1.params (flattenBatch cexBatch) := by
  -- abbreviations
  set E : ℝ := Real.exp 1 with hEdef
  set S : ℝ := 8 + E + E⁻¹ with hSdef
  -- basic facts about the parameters
  have hx : ∀ i : Fin 784, cexX i = 0 := fun _ => rfl
  have hW2 : ∀ k l, cexParams.W2 k l = 0 := fun _ _ => rfl
  have hb1 : ∀ l, cexParams.b1 l ≤ 0 := fun _ => by norm_num [cexParams]
  have hb2ne : ∀ k : Fin 64, k ≠ 0 → cexParams.b2 k ≤ 0 := by
    intro k hk
    show (if k = 0 then (11/100 : ℝ) else -1) ≤ 0
    rw [if_neg hk]
    norm_num
  have hb20 : cexParams.b2 0 = 11/100 := rfl
  have hu0pos : (0 : ℝ) < 11/100 := by norm_num
  have hrelu_u0 : relu (cexParams.b2 0) = 11/100 := by
    rw [hb20, relu, max_eq_left (le_of_lt hu0pos)]
  have hW3 : ∀ j : Fin 10, cexParams.W3 j 0 =
      (if j = 1 then (100 : ℝ) else if j = 2 then -100 else 0) := fun _ => rfl
  have hb3 : ∀ j : Fin 10, cexParams.b3 j =
      (if j = 1 then (-10 : ℝ) else if j = 2 then 10 else 0) := fun _ => rfl
  -- the logits before the update
  have hz : ∀ j : Fin 10, logits cexParams cexX j =
      (if j = 1 then (1 : ℝ) else if j = 2 then -1 else 0) := by
    intro j
    rw [logits_sparse cexParams cexX hW2 hb2ne j, hrelu_u0, hW3 j, hb3 j]
    by_cases h1 : j = 1
    · rw [if_pos h1, if_pos h1, if_pos h1]; norm_num
    · rw [if_neg h1, if_neg h1, if_neg h1]
      by_cases h2 : j = 2
      · rw [if_pos h2, if_pos h2, if_pos h2]; norm_num
      · rw [if_neg h2, if_neg h2, if_neg h2]; norm_num
  -- the partition function before the update
  have hsum : (∑ j, Real.exp (logits cexParams cexX j)) = S := by
    rw [Finset.sum_congr rfl (fun j _ => by rw [hz j]), hSdef]
    simp only [Fin.sum_univ_succ, Finset.univ_eq_empty, Finset.sum_empty]
    simp +decide only [if_true, if_false, Real.exp_zero, Real.exp_neg]
    ring
  -- positivity facts
  have hEpos : (0:ℝ) < E := Real.exp_pos 1
  have hEipos : (0:ℝ) < E⁻¹ := inv_pos.mpr hEpos
  have hSpos : (0:ℝ) < S := by rw [hSdef]; linarith
  have hz0 : logits cexParams cexX 0 = 0 := by
    rw [hz 0, if_neg (by decide), if_neg (by decide)]
  -- loss before the update
  have hL0 : nllLoss cexState.params (flattenBatch cexBatch) = Real.log S := by
    show nllLoss cexParams _ = _
    rw [flattenBatch_cex, nllLoss_replicate _ _ _ (by norm_num)]
    have hm : modelOut cexParams cexX 0 =
        logits cexParams cexX 0 - Real.log (∑ j, Real.exp (logits cexParams cexX j)) := rfl
    rw [hm, hz0, hsum]
    ring
  -- the parameters after one optimiser step
  have hupd : (trainStep (3/1000) cexState cexBatch).1.params =
      sgdUpdate (3/1000) cexParams (sampleGrads cexParams cexX 0) := by
    rw [(trainStep_closed (3/1000) cexState cexBatch).1,
      show cexState.params = cexParams from rfl,
      flattenBatch_cex, batchGrads_replicate _ _ _ (by norm_num)]
  set g : Grads := sampleGrads cexParams cexX 0 with hgdef
  set p1 : Params := sgdUpdate (3/1000) cexParams g with hp1def
  -- gradient components
  have hact1 : ∀ l, act1 cexParams cexX l = 0 := act1_zero cexParams cexX hx hb1
  have hd2ne : ∀ k : Fin 64, k ≠ 0 → delta2 cexParams cexX 0 k = 0 :=
    delta2_sparse cexParams cexX 0 hW2 hb2ne
  have hd3 : ∀ j, delta3 cexParams cexX 0 j =
      Real.exp (logits cexParams cexX j) / S - (if j = 0 then 1 else 0) := by
    intro j
    have h0 : delta3 cexParams cexX 0 j =
        Real.exp (logits cexParams cexX j) / (∑ i, Real.exp (logits cexParams cexX i)) -
          (if j = 0 then 1 else 0) := rfl
    rw [h0, hsum]
  have hd3_0 : delta3 cexParams cexX 0 0 = 1/S - 1 := by
    rw [hd3 0, hz0, Real.exp_zero, if_pos rfl]
  have hd3_1 : delta3 cexParams cexX 0 1 = E/S := by
    have hz1 : logits cexParams cexX 1 = 1 := by rw [hz 1, if_pos rfl]
    rw [hd3 1, hz1, if_neg (by decide), sub_zero]
  have hd3_2 : delta3 cexParams cexX 0 2 = E⁻¹/S := by
    have hz2 : logits cexParams cexX 2 = -1 := by
      rw [hz 2, if_neg (by decide), if_pos rfl]
    rw [hd3 2, hz2, Real.exp_neg, if_neg (by decide), sub_zero]
  have hpre20 : pre2 cexParams cexX 0 = cexParams.b2 0 := pre2_eq_b2 cexParams cexX hW2 0
  have hd20 : delta2 cexParams cexX 0 0 = 100 * (E/S) - 100 * (E⁻¹/S) := by
    have h0 : delta2 cexParams cexX 0 0 =
        (∑ j, cexParams.W3 j 0 * delta3 cexParams cexX 0 j) *
          reluDeriv (pre2 cexParams cexX 0) := rfl
    have hterm : ∀ j : Fin 10, cexParams.W3 j 0 * delta3 cexParams cexX 0 j =
        (if j = 1 then (100:ℝ) else if j = 2 then -100 else 0) *
          (Real.exp (if j = 1 then (1:ℝ) else if j = 2 then -1 else 0)/S -
            (if j = 0 then 1 else 0)) := by
      intro j
      rw [hW3 j, hd3 j, hz j]
    rw [h0, hpre20, hb20, reluDeriv, if_pos hu0pos, mul_one,
      Finset.sum_congr rfl (fun j _ => hterm j)]
    simp +decide only [Fin.sum_univ_succ, Finset.univ_eq_empty, Finset.sum_empty,
      if_true, if_false, Real.exp_zero, Real.exp_neg]
    ring
  -- the updated parameters, pointwise
  have hp1b2_0 : p1.b2 0 = 11/100 - (3/1000) * (100*(E/S) - 100*(E⁻¹/S)) := by
    have h0 : p1.b2 0 = cexParams.b2 0 - (3/1000) * delta2 cexParams cexX 0 0 := rfl
    rw [h0, hd20, hb20]
  have hp1b2_ne : ∀ k : Fin 64, k ≠ 0 → p1.b2 k ≤ 0 := by
    intro k hk
    have h0 : p1.b2 k = cexParams.b2 k - (3/1000) * delta2 cexParams cexX 0 k := rfl
    rw [h0, hd2ne k hk, mul_zero, sub_zero]
    exact hb2ne k hk
  have hp1W2 : ∀ k l, p1.W2 k l = 0 := by
    intro k l
    have h0 : p1.W2 k l = cexParams.W2 k l -
        (3/1000) * (delta2 cexParams cexX 0 k * act1 cexParams cexX l) := rfl
    rw [h0, hW2 k l, hact1 l, mul_zero, mul_zero, sub_zero]
  -- the updated third-layer entries
  have hgW3 : ∀ j, g.gW3 j 0 = delta3 cexParams cexX 0 j * (11/100) := by
    intro j
    have h0 : g.gW3 j 0 = delta3 cexParams cexX 0 j * act2 cexParams cexX 0 := rfl
    rw [h0, act2_sparse cexParams cexX hW2 hb2ne 0, if_pos rfl, hrelu_u0]
  have hp1W3 : ∀ j, p1.W3 j 0 =
      cexParams.W3 j 0 - (3/1000) * (delta3 cexParams cexX 0 j * (11/100)) := by
    intro j
    have h0 : p1.W3 j 0 = cexParams.W3 j 0 - (3/1000) * g.gW3 j 0 := rfl
    rw [h0, hgW3 j]
  have hp1b3 : ∀ j, p1.b3 j = cexParams.b3 j - (3/1000) * delta3 cexParams cexX 0 j :=
    fun _ => rfl
  clear_value p1 g
  -- the new logits
  have hz' : ∀ j, logits p1 cexX j = p1.W3 j 0 * relu (p1.b2 0) + p1.b3 j :=
    logits_sparse p1 cexX hp1W2 hp1b2_ne
  -- numeric bounds
  have hE1 : (2.7182:ℝ) < E := by rw [hEdef]; exact expBound1
  have hE2 : E < 2.7183 := by rw [hEdef]; exact expBound2
  have hEi1 : (0.3676:ℝ) < E⁻¹ := by rw [hEdef]; exact expInvBound1
  have hEi2 : E⁻¹ < 0.368 := by rw [hEdef]; exact expInvBound2
  have hS1 : (11.08:ℝ) < S := by
    rw [hSdef]
    linarith only [hE1, hEi1]
  have hS2 : S < 11.09 := by
    rw [hSdef]
    linarith only [hE2, hEi2]
  clear_value E S
  have hqlo : (0.21:ℝ) < E/S - E⁻¹/S := by
    rw [div_sub_div_same, lt_div_iff₀ hSpos]
    linarith only [hS2, hE1, hEi2]
  have hqhi : E/S - E⁻¹/S < 0.213 := by
    rw [div_sub_div_same, div_lt_iff₀ hSpos]
    linarith only [hS1, hE2, hEi1]
  have hu1lo : (0.045:ℝ) < p1.b2 0 := by
    rw [hp1b2_0]
    linarith only [hqhi]
  have hu1hi : p1.b2 0 < 0.048 := by
    rw [hp1b2_0]
    linarith only [hqlo]
  have hrelu_u1 : relu (p1.b2 0) = p1.b2 0 := by
    rw [relu, max_eq_left]
    linarith only [hu1lo]
  have hq2pos : (0:ℝ) < E⁻¹/S := div_pos hEipos hSpos
  have hq2lt : E⁻¹/S < 1 := by
    rw [div_lt_one hSpos]
    linarith only [hEi2, hS1]
  -- lower bound for the second logit after the step
  have hW3_2 : cexParams.W3 2 0 = -100 := by
    rw [hW3 2, if_neg (by decide), if_pos rfl]
  have hb3_2 : cexParams.b3 2 = 10 := by
    rw [hb3 2, if_neg (by decide), if_pos rfl]
  have hz'2 : logits p1 cexX 2 =
      10 - 100 * p1.b2 0 -
        (3/1000) * (E⁻¹/S) * ((11/100) * p1.b2 0 + 1) := by
    rw [hz' 2, hrelu_u1, hp1W3 2, hp1b3 2, hW3_2, hb3_2, hd3_2]
    ring
  have hinlo : (0:ℝ) < (11/100) * p1.b2 0 + 1 := by linarith only [hu1lo]
  have hinhi : (11/100) * p1.b2 0 + 1 < 1.01 := by linarith only [hu1hi]
  have hterm2lo : (0:ℝ) ≤ (3/1000) * (E⁻¹/S) * ((11/100) * p1.b2 0 + 1) :=
    mul_nonneg (mul_nonneg (by norm_num) hq2pos.le) hinlo.le
  have hterm2hi : (3/1000) * (E⁻¹/S) * ((11/100) * p1.b2 0 + 1) < 0.004 := by
    have h1 : (3/1000) * (E⁻¹/S) < 3/1000 := by
      calc (3/1000) * (E⁻¹/S) < (3/1000) * 1 :=
            mul_lt_mul_of_pos_left hq2lt (by norm_num)
      _ = 3/1000 := mul_one _
    calc (3/1000) * (E⁻¹/S) * ((11/100) * p1.b2 0 + 1)
        < (3/1000) * 1.01 :=
          mul_lt_mul'' h1 hinhi (mul_nonneg (by norm_num) hq2pos.le) hinlo.le
    _ < 0.004 := by norm_num
  have hz'2lo : (5:ℝ) < logits p1 cexX 2 := by
    rw [hz'2]
    linarith only [hu1hi, hterm2lo, hterm2hi]
  -- bounds for the true-class logit after the step
  have hW3_0 : cexParams.W3 0 0 = 0 := by
    rw [hW3 0, if_neg (by decide), if_neg (by decide)]
  have hb3_0 : cexParams.b3 0 = 0 := by
    rw [hb3 0, if_neg (by decide), if_neg (by decide)]
  have hz'0 : logits p1 cexX 0 =
      (3/1000) * (1 - 1/S) * ((11/100) * p1.b2 0 + 1) := by
    rw [hz' 0, hrelu_u1, hp1W3 0, hp1b3 0, hW3_0, hb3_0, hd3_0]
    ring
  have hq0pos : (0:ℝ) < 1/S := by positivity
  have hq0lt : (1:ℝ)/S < 1 := by
    rw [div_lt_one hSpos]
    linarith only [hS1]
  have hrlo : (0:ℝ) < 1 - 1/S := by linarith only [hq0lt]
  have hr1 : (1:ℝ) - 1/S < 1 := by linarith only [hq0pos]
  have hz'0lo : (0:ℝ) ≤ logits p1 cexX 0 := by
    rw [hz'0]
    exact mul_nonneg (mul_nonneg (by norm_num) hrlo.le) hinlo.le
  have hz'0hi : logits p1 cexX 0 < 0.1 := by
    rw [hz'0]
    have h1 : (3/1000) * (1 - 1/S) < 3/1000 := by
      calc (3/1000) * (1 - 1/S) < (3/1000) * 1 :=
            mul_lt_mul_of_pos_left hr1 (by norm_num)
      _ = 3/1000 := mul_one _
    calc (3/1000) * (1 - 1/S) * ((11/100) * p1.b2 0 + 1)
        < (3/1000) * 1.01 :=
          mul_lt_mul'' h1 hinhi (mul_nonneg (by norm_num) hrlo.le) hinlo.le
    _ < 0.1 := by norm_num
  -- loss after the update
  have hL1 : nllLoss p1 (flattenBatch cexBatch) =
      Real.log (∑ j, Real.exp (logits p1 cexX j)) - logits p1 cexX 0 := by
    rw [flattenBatch_cex, nllLoss_replicate _ _ _ (by norm_num)]
    have hm : modelOut p1 cexX 0 =
        logits p1 cexX 0 - Real.log (∑ j, Real.exp (logits p1 cexX j)) := rfl
    rw [hm]
    ring
  have hsum' : Real.exp (logits p1 cexX 2) ≤ ∑ j, Real.exp (logits p1 cexX j) :=
    Finset.single_le_sum (f := fun j => Real.exp (logits p1 cexX j))
      (fun j _ => le_of_lt (Real.exp_pos _)) (Finset.mem_univ 2)
  have hlogsum : logits p1 cexX 2 ≤ Real.log (∑ j, Real.exp (logits p1 cexX j)) := by
    calc logits p1 cexX 2 = Real.log (Real.exp (logits p1 cexX 2)) := (Real.log_exp _).symm
    _ ≤ _ := Real.log_le_log (Real.exp_pos _) hsum'
  have hL0lt : Real.log S < 3 := by
    calc Real.log S < Real.log (Real.exp 3) :=
          Real.log_lt_log hSpos (by linarith only [hS2, expCubeBound])
    _ = 3 := Real.log_exp 3
  rw [hL0, hupd, hL1]
  linarith only [hL0lt, hlogsum, hz'2lo, hz'0hi]

noncomputable section

/-- The Euclidean inner product of two gradient-shaped vectors over
all parameter entries. -/
def Grads.inner (g h : Grads) : ℝ :=
  (∑ l, ∑ i, g.gW1 l i * h.gW1 l i) + (∑ l, g.gb1 l * h.gb1 l) +
  (∑ k, ∑ l, g.gW2 k l * h.gW2 k l) + (∑ k, g.gb2 k * h.gb2 k) +
  (∑ j, ∑ k, g.gW3 j k * h.gW3 j k) + (∑ j, g.gb3 j * h.gb3 j)

/-- The entrywise difference of two parameter settings, as a
gradient-shaped vector (the displacement an update performed). -/
def paramsSub (p q : Params) : Grads :=
  { gW1 := fun l i => p.W1 l i - q.W1 l i,
    gb1 := fun l => p.b1 l - q.b1 l,
    gW2 := fun k l => p.W2 k l - q.W2 k l,
    gb2 := fun k => p.b2 k - q.b2 k,
    gW3 := fun j k => p.W3 j k - q.W3 j k,
    gb3 := fun j => p.b3 j - q.b3 j }

end

theorem sum_mul_self_nonneg {n : ℕ} (f : Fin n → ℝ) : 0 ≤ ∑ i, f i * f i :=
  Finset.sum_nonneg fun i _ => mul_self_nonneg (f i)

theorem sum_sum_mul_self_nonneg {n m : ℕ} (f : Fin n → Fin m → ℝ) :
    0 ≤ ∑ i, ∑ j, f i j * f i j :=
  Finset.sum_nonneg fun i _ => sum_mul_self_nonneg (f i)

theorem gradsInner_self_nonneg (g : Grads) : 0 ≤ Grads.inner g g := by
  rw [Grads.inner]
  have h1 := sum_sum_mul_self_nonneg g.gW1
  have h2 := sum_mul_self_nonneg g.gb1
  have h3 := sum_sum_mul_self_nonneg g.gW2
  have h4 := sum_mul_self_nonneg g.gb2
  have h5 := sum_sum_mul_self_nonneg g.gW3
  have h6 := sum_mul_self_nonneg g.gb3
  linarith only [h1, h2, h3, h4, h5, h6]

theorem inner_sgd_sub (lr : ℝ) (p : Params) (g : Grads) :
    Grads.inner (paramsSub (sgdUpdate lr p g) p) g = -(lr * Grads.inner g g) := by
  have hterm : ∀ a b : ℝ, (a - lr * b - a) * b = -lr * (b * b) := fun a b => by ring
  simp only [Grads.inner, paramsSub, sgdUpdate, hterm, ← Finset.mul_sum]
  ring

/-- C8 (amended).  One training step applies exactly one SGD update to
the parameters, the displacement it performs is `−lr` times the batch
gradient — its inner product with the gradient is `−lr·‖g‖² ≤ 0`, the
first-order (descent-direction) sanity guarantee — but, as
`cex_loss_increases` shows, the loss re-scored on the same batch can
nevertheless strictly increase, so the monotone-decrease reading of
the claim is false. -/
theorem training_step_descent_direction (lr : ℝ) (hlr : 0 ≤ lr)
    (st : TrainState) (batch : RawBatch) :
    (trainStep lr st batch).1.params =
      sgdUpdate lr st.params (batchGrads st.params (flattenBatch batch)) ∧
    Grads.inner (paramsSub (trainStep lr st batch).1.params st.params)
        (batchGrads st.params (flattenBatch batch)) =
      -(lr * Grads.inner (batchGrads st.params (flattenBatch batch))
          (batchGrads st.params (flattenBatch batch))) ∧
    Grads.inner (paramsSub (trainStep lr st batch).1.params st.params)
        (batchGrads st.params (flattenBatch batch)) ≤ 0 := by
  have h1 := (trainStep_closed lr st batch).1
  refine ⟨h1, ?_, ?_⟩
  · rw [h1, inner_sgd_sub]
  · rw [h1, inner_sgd_sub]
    have hgg := gradsInner_self_nonneg (batchGrads st.params (flattenBatch batch))
    have := mul_nonneg hlr hgg
    linarith only [this]

theorem training_step_descent_direction_witness :
    (0:ℝ) ≤ 3/1000 ∧
    ((trainStep (3/1000) cexState cexBatch).1.params =
        sgdUpdate (3/1000) cexState.params
          (batchGrads cexState.params (flattenBatch cexBatch)) ∧
      Grads.inner (paramsSub (trainStep (3/1000) cexState cexBatch).1.params cexState.params)
          (batchGrads cexState.params (flattenBatch cexBatch)) =
        -((3/1000) * Grads.inner (batchGrads cexState.params (flattenBatch cexBatch))
            (batchGrads cexState.params (flattenBatch cexBatch))) ∧
      Grads.inner (paramsSub (trainStep (3/1000) cexState cexBatch).1.params cexState.params)
          (batchGrads cexState.params (flattenBatch cexBatch)) ≤ 0) :=
  ⟨by norm_num, training_step_descent_direction (3/1000) (by norm_num) cexState cexBatch⟩
